import Mathlib

/-!
Shallow embedding of the xbbs build-coordinator core (files
src/xbbs/messages.py, src/xbbs/coordinator/__init__.py and
src/xbbs/worker/__init__.py) and proofs about it.

Modelling conventions:
  * Python objects become Lean structures; mutation becomes explicit state
    passing.  Artifacts are kept in an arena list and referenced by index,
    which models CPython object identity as produced by Build.set_graph
    (the same Artifact object is shared between a producer's products list
    and its consumers' deps lists).
  * Dictionaries become association lists in insertion order, matching
    CPython dict iteration order.
  * Byte strings become List Nat.  BLAKE2b is kept abstract: theorems are
    parameterised by a hash function H : List Nat → List Nat together with
    the hypothesis that digests are 64 bytes long, and by a serialisation
    function pack for ChunkMessage (msgpack in the source).
  * Filesystem, database and socket side effects are not modelled; where a
    handler's observable behaviour matters, an explicit outcome value
    records which control path was taken.
  * Exceptions become Except values or outcome constructors.
-/

/- ----------------------------------------------------------------- -/
/- Section 1: message-module enumerations (src/xbbs/messages.py)     -/
/- ----------------------------------------------------------------- -/

/-- JobStatus from messages.py (the eight enum members). -/
inductive JobStatus where
  | WAITING
  | RUNNING
  | WAITING_FOR_DONE
  | FAILED
  | SUCCESS
  | PREREQUISITE_FAILED
  | UP_TO_DATE
  | IGNORED_FAILURE
deriving DecidableEq, Repr

/-- JobStatus.terminating from messages.py: membership in
[FAILED, SUCCESS, IGNORED_FAILURE, UP_TO_DATE]. -/
def JobStatus.terminating : JobStatus → Bool
  | .FAILED => true
  | .SUCCESS => true
  | .IGNORED_FAILURE => true
  | .UP_TO_DATE => true
  | _ => false

/-- JobStatus.successful from messages.py: membership in
[SUCCESS, IGNORED_FAILURE, UP_TO_DATE]. -/
def JobStatus.successful : JobStatus → Bool
  | .SUCCESS => true
  | .IGNORED_FAILURE => true
  | .UP_TO_DATE => true
  | _ => false

/-- BuildState from messages.py.  The enum declares exactly these seven
members; there is no UPDATING_MIRRORS member. -/
inductive BuildState where
  | SCHEDULED
  | FETCH
  | SETUP
  | CALCULATING
  | SETUP_REPOS
  | RUNNING
  | DONE
deriving DecidableEq, Repr

/-- The declared name of each BuildState member. -/
def BuildState.memberName : BuildState → String
  | .SCHEDULED => "SCHEDULED"
  | .FETCH => "FETCH"
  | .SETUP => "SETUP"
  | .CALCULATING => "CALCULATING"
  | .SETUP_REPOS => "SETUP_REPOS"
  | .RUNNING => "RUNNING"
  | .DONE => "DONE"

/-- The member list of the BuildState enum, in declaration order. -/
def buildStateMembers : List BuildState :=
  [.SCHEDULED, .FETCH, .SETUP, .CALCULATING, .SETUP_REPOS, .RUNNING, .DONE]

/-- Python attribute access BuildState.NAME, modelled as a lookup among the
declared members; none means the access raises AttributeError. -/
def buildStateOfName (s : String) : Option BuildState :=
  buildStateMembers.find? (fun b => b.memberName = s)

/-- The state name that run_project (coordinator, mirror_root branch)
references as msgs.BuildState.UPDATING_MIRRORS. -/
def runProjectMirrorStateName : String := "UPDATING_MIRRORS"

/-- The mirror step of run_project: when the project has a mirror_root the
driver evaluates msgs.BuildState.UPDATING_MIRRORS to transition to it
before invoking xbstrap-mirror; resolving a missing enum member raises
AttributeError.  Returns the state transitioned to, if any. -/
def runProjectMirrorStep (mirrorRoot : Option String) :
    Except String (Option BuildState) :=
  match mirrorRoot with
  | none => .ok none
  | some _ =>
    match buildStateOfName runProjectMirrorStateName with
    | none => .error "AttributeError: UPDATING_MIRRORS"
    | some s => .ok (some s)

/- ----------------------------------------------------------------- -/
/- Section 2: attrs constructor calls and module attributes          -/
/- ----------------------------------------------------------------- -/

/-- The attribute fields of JobMessage as declared in messages.py, in
order, paired with whether the field is required (has no default).
The declared fields are project, job, repository, revision, output,
build_root, needed_pkgs, needed_tools, prod_pkgs, prod_tools, prod_files,
tool_repo, pkg_repo, rolling_ids and the defaulted xbps_keys. -/
def jobMessageFields : List (String × Bool) :=
  [("project", true), ("job", true), ("repository", true), ("revision", true),
   ("output", true), ("build_root", true), ("needed_pkgs", true),
   ("needed_tools", true), ("prod_pkgs", true), ("prod_tools", true),
   ("prod_files", true), ("tool_repo", true), ("pkg_repo", true),
   ("rolling_ids", true), ("xbps_keys", false)]

/-- The keyword arguments solve_project passes when constructing
msgs.JobMessage for a dispatchable job (coordinator, jobreq construction). -/
def solveProjectJobMessageKwargs : List String :=
  ["project", "job", "repository", "revision", "output", "build_root",
   "needed_tools", "needed_pkgs", "prod_pkgs", "prod_tools", "prod_files",
   "tool_repo", "pkg_repo", "commits_object", "xbps_keys", "mirror_root",
   "distfile_path"]

/-- Semantics of calling an attrs-generated __init__ with a set of keyword
arguments: the call succeeds exactly when every keyword names a declared
field and every required field receives a keyword; otherwise Python raises
TypeError. -/
def attrsInitAccepts (fields : List (String × Bool)) (kwargs : List String) :
    Bool :=
  kwargs.all (fun k => fields.any (fun f => f.1 = k)) &&
  fields.all (fun f => !f.2 || kwargs.contains f.1)

/-- The classes defined by module xbbs.messages (messages.py), i.e. the
names resolvable as attributes of the module. -/
def messagesModuleClasses : List String :=
  ["BaseMessage", "Heartbeat", "WorkMessage", "JobMessage",
   "ArtifactMessage", "LogMessage", "ChunkMessage", "JobCompletionMessage",
   "StatusMessage", "ScheduleMessage"]

/-- The message class cmd_build resolves on its first statement
(msgs.BuildMessage.unpack(arg)). -/
def cmdBuildMessageClassName : String := "BuildMessage"

/-- The first step of cmd_build: resolving msgs.BuildMessage.  A missing
module attribute raises AttributeError before any project lookup, 404/409
reply or Build creation can happen. -/
def cmdBuildUnpackStep : Except String Unit :=
  if messagesModuleClasses.contains cmdBuildMessageClassName then .ok ()
  else .error "AttributeError: module xbbs.messages has no attribute"

/-- command_loop's reply code for a command result: 200-family on success;
an exception that is not ZMQError, ProtocolError or ValidationError falls
through to the generic handler, which replies 500. -/
def commandLoopReplyCode (r : Except String Unit) : Nat :=
  match r with
  | .ok _ => 200
  | .error _ => 500

/- ----------------------------------------------------------------- -/
/- Section 3: graph data model (coordinator Artifact, Job, Build)    -/
/- ----------------------------------------------------------------- -/

/-- Artifact.Kind from the coordinator. -/
inductive ArtKind where
  | TOOL
  | PACKAGE
  | FILE
deriving DecidableEq, Repr

/-- The dynamic type of an Artifact's architecture attribute: files carry
None, tool/package descriptors carry a string, and the noarch rewrite at
the end of set_graph stores list(arch_set), whose elements are the strings
(or None) previously added to arch_set. -/
inductive Arch where
  | nonev
  | strv (s : String)
  | listv (l : List (Option String))
deriving DecidableEq, Repr

/-- Artifact from the coordinator.  received and failed are the mutable
status bits (excluded from attrs equality in the source; equality of
artifacts is not used by the modelled code, which references artifacts by
arena index). -/
structure Artifact where
  kind : ArtKind
  name : String
  version : Option String
  architecture : Arch
  received : Bool := false
  failed : Bool := false
deriving DecidableEq, Repr

/-- Job from the coordinator.  deps and products hold arena indices of the
shared Artifact objects. -/
structure BJob where
  unstable : Bool := false
  deps : List Nat := []
  products : List Nat := []
  capabilities : List String := []
  status : JobStatus := JobStatus.WAITING
  exitCode : Option Int := none
  runTime : Option Int := none
deriving DecidableEq, Repr

/-- Build from the coordinator: the artifact arena, the jobs mapping in
insertion order, the three name-to-artifact sets, and the bits of dynamic
state the modelled handlers touch.  archSet models the local variable
arch_set of set_graph (kept here so the ingestion state is one value);
artifactReceived models the gevent artifact_received event as a level bit.
Completion numbers (exit_code, run_time) are modelled as integers; only
their transport matters to the modelled code, not their arithmetic. -/
structure Build where
  artifacts : List Artifact := []
  jobs : List (String × BJob) := []
  toolSet : List (String × Nat) := []
  pkgSet : List (String × Nat) := []
  fileSet : List (String × Nat) := []
  archSet : List (Option String) := []
  revision : Option String := none
  commitsObject : String := ""
  artifactReceived : Bool := false
deriving DecidableEq, Repr

/-- Association-list lookup, modelling Python dict indexing (insertion
order, unique keys). -/
def alistGet {κ α : Type} [DecidableEq κ] (l : List (κ × α)) (k : κ) :
    Option α :=
  match l with
  | [] => none
  | (k', v) :: t => if k' = k then some v else alistGet t k

/-- Association-list update-or-insert, modelling Python dict assignment. -/
def alistSet {κ α : Type} [DecidableEq κ] (l : List (κ × α)) (k : κ) (v : α) :
    List (κ × α) :=
  match l with
  | [] => [(k, v)]
  | (k', v') :: t => if k' = k then (k, v) :: t else (k', v') :: alistSet t k v

/-- Association-list deletion of one key, modelling Python del d[k]. -/
def alistErase {κ α : Type} [DecidableEq κ] (l : List (κ × α)) (k : κ) :
    List (κ × α) :=
  match l with
  | [] => []
  | (k', v') :: t => if k' = k then t else (k', v') :: alistErase t k

def Build.job? (g : Build) (k : Nat) : Option BJob :=
  (g.jobs[k]?).map Prod.snd

def Build.jobDeps (g : Build) (k : Nat) : List Nat :=
  ((g.job? k).map BJob.deps).getD []

def Build.jobProducts (g : Build) (k : Nat) : List Nat :=
  ((g.job? k).map BJob.products).getD []

def Build.jobStatus (g : Build) (k : Nat) : JobStatus :=
  ((g.job? k).map BJob.status).getD JobStatus.WAITING

def Build.artFailed (g : Build) (p : Nat) : Bool :=
  ((g.artifacts[p]?).map Artifact.failed).getD true

def Build.artReceived (g : Build) (p : Nat) : Bool :=
  ((g.artifacts[p]?).map Artifact.received).getD false

def Build.setJobStatus (g : Build) (j : Nat) (s : JobStatus) : Build :=
  match g.jobs[j]? with
  | none => g
  | some (nm, jb) => { g with jobs := g.jobs.set j (nm, { jb with status := s }) }

/-- The two assignments prod.failed = True; prod.received = True from
Job.fail. -/
def Build.markArtifactFailed (g : Build) (p : Nat) : Build :=
  match g.artifacts[p]? with
  | none => g
  | some a =>
    { g with artifacts := g.artifacts.set p { a with failed := true, received := true } }

/- ----------------------------------------------------------------- -/
/- Section 4: Job.fail (coordinator)                                 -/
/- ----------------------------------------------------------------- -/

/-- The status assignment at the top of Job.fail: a RUNNING job becomes
WAITING_FOR_DONE, otherwise IGNORED_FAILURE when unstable and FAILED when
not. -/
def failStatusNext (unstable : Bool) (s : JobStatus) : JobStatus :=
  if s = JobStatus.RUNNING then JobStatus.WAITING_FOR_DONE
  else if unstable then JobStatus.IGNORED_FAILURE else JobStatus.FAILED

/-- The inner loop of Job.fail: for job in graph.values(): if prod in
job.deps: job.fail(graph).  The recursive call is passed in as f. -/
def failConsumers (f : Build → Nat → Build) (p : Nat) (g : Build)
    (ks : List Nat) : Build :=
  ks.foldl (fun acc k => if p ∈ acc.jobDeps k then f acc k else acc) g

/-- The outer loop of Job.fail over self.products: already-failed products
are skipped; fresh ones are marked failed and received, and every consumer
is failed recursively. -/
def failProducts (f : Build → Nat → Build) (g : Build) (ps : List Nat) :
    Build :=
  ps.foldl (fun acc p =>
    if acc.artFailed p then acc
    else
      let acc1 := acc.markArtifactFailed p
      failConsumers f p acc1 (List.range acc1.jobs.length)) g

/-- Job.fail with an explicit recursion budget.  Each nested fail call is
preceded by newly failing one artifact, so recursion depth is bounded by
the number of artifacts plus one and the budget below never runs out. -/
def failFuel : Nat → Build → Nat → Build
  | 0 => fun g _ => g
  | fuel + 1 => fun g j =>
    match g.job? j with
    | none => g
    | some jb =>
      failProducts (failFuel fuel)
        (g.setJobStatus j (failStatusNext jb.unstable jb.status)) jb.products

/-- Job.fail(self, graph) on the job at index j of the graph. -/
def Build.jobFail (g : Build) (j : Nat) : Build :=
  failFuel (g.artifacts.length + 1) g j

/-- Number of artifacts whose failed bit is still false. -/
def unfailedCount (g : Build) : Nat :=
  g.artifacts.countP (fun a => !a.failed)

/-- One deps-of-consumers edge: some product of job i is a dependency of
job k.  The claim quantifies reachability over these edges. -/
def consEdge (g : Build) (i k : Nat) : Prop :=
  ∃ p, p ∈ g.jobProducts i ∧ p ∈ g.jobDeps k

/-- A deps-of-consumers edge through a product that is not already failed;
these are the edges the fail cascade is guaranteed to follow. -/
def consEdgeFresh (g : Build) (i k : Nat) : Prop :=
  ∃ p, p ∈ g.jobProducts i ∧ g.artFailed p = false ∧ p ∈ g.jobDeps k

/-- Transitive reachability from the initially failed job along
deps-of-consumers edges through not-already-failed products. -/
def ReachCons (g : Build) (j0 k : Nat) : Prop :=
  Relation.ReflTransGen (consEdgeFresh g) j0 k

/-- The statuses Job.fail can leave a visited job in: WAITING_FOR_DONE for
jobs that were RUNNING, else FAILED or IGNORED_FAILURE. -/
def inFailSet (s : JobStatus) : Prop :=
  s = JobStatus.WAITING_FOR_DONE ∨ s = JobStatus.FAILED ∨
    s = JobStatus.IGNORED_FAILURE

/-- Job k has been handled by the cascade: its status is one Job.fail
writes and all its products are failed. -/
def GoodAt (g g' : Build) (k : Nat) : Prop :=
  inFailSet (g'.jobStatus k) ∧ ∀ q ∈ g.jobProducts k, g'.artFailed q = true

/-- Every artifact newly failed between g and g' has had all its consumers
handled by the cascade. -/
def NewlyFailedHandled (g g' : Build) : Prop :=
  ∀ p, g.artFailed p = false → g'.artFailed p = true →
    ∀ k, p ∈ g.jobDeps k → GoodAt g g' k

/-- How one coordinator state evolves into another under the fail cascade:
job structure is preserved, failed/received bits only grow, newly failed
artifacts have been received, and statuses only change into the fail
statuses. -/
structure Evol (g g' : Build) : Prop where
  artLen : g'.artifacts.length = g.artifacts.length
  jobsLen : g'.jobs.length = g.jobs.length
  depsEq : ∀ k, g'.jobDeps k = g.jobDeps k
  productsEq : ∀ k, g'.jobProducts k = g.jobProducts k
  jobSome : ∀ k, (g'.job? k).isSome = (g.job? k).isSome
  failedMono : ∀ p, g.artFailed p = true → g'.artFailed p = true
  receivedMono : ∀ p, g.artReceived p = true → g'.artReceived p = true
  newReceived : ∀ p, g'.artFailed p = true →
    g.artFailed p = true ∨ g'.artReceived p = true
  statusStep : ∀ k, g'.jobStatus k = g.jobStatus k ∨ inFailSet (g'.jobStatus k)
  countLe : unfailedCount g' ≤ unfailedCount g

/- ----------------------------------------------------------------- -/
/- Section 5: Build.set_graph (coordinator)                          -/
/- ----------------------------------------------------------------- -/

/-- A tool/package descriptor of the validated input graph:
name, version, architecture. -/
structure ArtDesc where
  name : String
  version : String
  architecture : String
deriving DecidableEq, Repr

/-- products of a graph job: tools, pkgs and files (file descriptors are
adapted to their name by the validator). -/
structure GProducts where
  tools : List ArtDesc := []
  pkgs : List ArtDesc := []
  files : List String := []
deriving DecidableEq, Repr

/-- needed of a graph job: tools and pkgs. -/
structure GNeeded where
  tools : List ArtDesc := []
  pkgs : List ArtDesc := []
deriving DecidableEq, Repr

/-- One validated job record of the input graph. -/
structure GJobInfo where
  up2date : Bool := false
  unstable : Bool := false
  capabilities : List String := []
  products : GProducts := {}
  needed : GNeeded := {}
deriving DecidableEq, Repr

/-- The dictionary selected by kind inside _handle_artifact. -/
def Build.aset (st : Build) : ArtKind → List (String × Nat)
  | .TOOL => st.toolSet
  | .PACKAGE => st.pkgSet
  | .FILE => st.fileSet

/-- Write back the kind-selected dictionary. -/
def Build.setAset (st : Build) (kind : ArtKind) (l : List (String × Nat)) :
    Build :=
  match kind with
  | .TOOL => { st with toolSet := l }
  | .PACKAGE => { st with pkgSet := l }
  | .FILE => { st with fileSet := l }

/-- Python hashability of an architecture value when used with the
arch_set set object: strings and None are hashable set elements, a list is
not (set membership or set.add raises TypeError). -/
def archHashable : Arch → Option (Option String)
  | .strv s => some (some s)
  | .nonev => some none
  | .listv _ => none

/-- _handle_artifact from Build.set_graph: get-or-create the named
artifact in the kind's set, append its index to the requesting list, then
run the architecture accumulation on the stored artifact's architecture.
The stored architecture of tool/package artifacts is always a string, so
the TypeError branch is unreachable from set_graph. -/
def handleArtifact (st : Build) (kind : ArtKind) (reqset : List Nat)
    (x : ArtDesc) : Except String (Build × List Nat) :=
  let aset := st.aset kind
  let stIdx : Build × Nat :=
    match alistGet aset x.name with
    | some i => (st, i)
    | none =>
      let i := st.artifacts.length
      let newArt : Artifact :=
        { kind := kind, name := x.name, version := some x.version,
          architecture := Arch.strv x.architecture }
      let st1 := { st with artifacts := st.artifacts.concat newArt }
      (st1.setAset kind (aset.concat (x.name, i)), i)
  let st1 := stIdx.1
  let idx := stIdx.2
  let reqset1 := reqset.concat idx
  let ta := ((st1.artifacts[idx]?).map Artifact.architecture).getD Arch.nonev
  if ta = Arch.strv "noarch" then
    .ok (st1, reqset1)
  else
    match archHashable ta with
    | none => .error "TypeError: unhashable architecture"
    | some v =>
      if st1.archSet ≠ [] ∧ v ∉ st1.archSet then
        .error "multiarch builds unsupported"
      else
        .ok ({ st1 with archSet :=
                if v ∈ st1.archSet then st1.archSet else st1.archSet.concat v },
             reqset1)

/-- One of the four descriptor loops of set_graph. -/
def handleList (st : Build) (kind : ArtKind) (reqset : List Nat)
    (xs : List ArtDesc) : Except String (Build × List Nat) :=
  match xs with
  | [] => .ok (st, reqset)
  | x :: t => do
    let r ← handleArtifact st kind reqset x
    handleList r.1 kind r.2 t

/-- The file-products loop of set_graph: a fresh FILE artifact per name
(architecture and version None), appended to products and assigned into
the files dictionary. -/
def ingestFiles (st : Build) (prods : List Nat) (files : List String) :
    Build × List Nat :=
  files.foldl (fun (acc : Build × List Nat) fname =>
    let idx := acc.1.artifacts.length
    let art : Artifact := { kind := ArtKind.FILE, name := fname,
                            version := none, architecture := Arch.nonev }
    ({ acc.1 with artifacts := acc.1.artifacts.concat art,
                  fileSet := alistSet acc.1.fileSet fname idx },
     acc.2.concat idx)) (st, prods)

/-- The up2date branch of set_graph: mark every product received and not
failed. -/
def markUpToDate (arts : List Artifact) (prods : List Nat) : List Artifact :=
  prods.foldl (fun acc p =>
    match acc[p]? with
    | none => acc
    | some a => acc.set p { a with received := true, failed := false }) arts

/-- The infallible tail of per-job ingestion: file products, the up2date
branch, then registration of the Job value. -/
def ingestJobFinish (st : Build) (jobName : String) (info : GJobInfo)
    (deps prods0 : List Nat) : Build :=
  let fr := ingestFiles st prods0 info.products.files
  let st5 := fr.1
  let prods := fr.2
  let status := if info.up2date then JobStatus.UP_TO_DATE else JobStatus.WAITING
  let st6 := if info.up2date
    then { st5 with artifacts := markUpToDate st5.artifacts prods }
    else st5
  let jobVal : BJob := { unstable := info.unstable,
                         capabilities := info.capabilities,
                         deps := deps, products := prods, status := status }
  { st6 with jobs := st6.jobs.concat (jobName, jobVal) }

/-- Processing of one (job name, info) entry of the graph inside
set_graph: needed tools, needed pkgs, product tools, product pkgs, then
the infallible tail. -/
def ingestJob (st : Build) (jobName : String) (info : GJobInfo) :
    Except String Build := do
  let r1 ← handleList st ArtKind.TOOL [] info.needed.tools
  let r2 ← handleList r1.1 ArtKind.PACKAGE r1.2 info.needed.pkgs
  let r3 ← handleList r2.1 ArtKind.TOOL [] info.products.tools
  let r4 ← handleList r3.1 ArtKind.PACKAGE r3.2 info.products.pkgs
  return ingestJobFinish r4.1 jobName info r2.2 r4.2

/-- The per-job ingestion loop of set_graph, starting from a fresh Build
with revision and commits_object recorded. -/
def setGraphJobs (revision : String) (graph : List (String × GJobInfo))
    (commitsObject : String) : Except String Build :=
  graph.foldlM (fun st nj => ingestJob st nj.1 nj.2)
    { revision := some revision, commitsObject := commitsObject }

/-- One step of the final rewrite loop of set_graph: if the artifact at
the index has the string architecture noarch, store list(arch_set). -/
def noarchStep (archSet : List (Option String)) (acc : Build) (idx : Nat) :
    Build :=
  match acc.artifacts[idx]? with
  | none => acc
  | some a =>
    if a.architecture = Arch.strv "noarch"
    then { acc with artifacts :=
             acc.artifacts.set idx { a with architecture := Arch.listv archSet } }
    else acc

/-- The final rewrite loop of set_graph over
itertools.chain(tools.values(), pkgs.values()). -/
def setGraphNoarch (st : Build) : Build :=
  ((st.toolSet.map Prod.snd) ++ (st.pkgSet.map Prod.snd)).foldl
    (noarchStep st.archSet) st

/-- Build.set_graph: validated-graph ingestion followed by the noarch
rewrite (store_status is filesystem output and not modelled). -/
def setGraph (revision : String) (graph : List (String × GJobInfo))
    (commitsObject : String) : Except String Build :=
  (setGraphJobs revision graph commitsObject).map setGraphNoarch

/-- Specification-side state for the architecture bookkeeping: which
tool/package/file names have been seen (i.e. which artifacts exist) and
the distinct non-noarch architectures of those artifacts in first-seen
order. -/
structure SpecSt where
  seenT : List String := []
  seenP : List String := []
  seenF : List String := []
  archs : List String := []
deriving DecidableEq, Repr

def SpecSt.seen (sp : SpecSt) : ArtKind → List String
  | .TOOL => sp.seenT
  | .PACKAGE => sp.seenP
  | .FILE => sp.seenF

def SpecSt.addSeen (sp : SpecSt) (kind : ArtKind) (n : String) : SpecSt :=
  match kind with
  | .TOOL => { sp with seenT := sp.seenT.concat n }
  | .PACKAGE => { sp with seenP := sp.seenP.concat n }
  | .FILE => { sp with seenF := sp.seenF.concat n }

/-- Specification-side processing of one tool/package descriptor: a name
already seen contributes nothing (the stored artifact is reused); a new
name contributes its declared architecture when it is concrete and new. -/
def specStep (sp : SpecSt) (kind : ArtKind) (x : ArtDesc) : SpecSt :=
  if x.name ∈ sp.seen kind then sp
  else
    let sp1 := sp.addSeen kind x.name
    if x.architecture ≠ "noarch" ∧ x.architecture ∉ sp.archs
    then { sp1 with archs := sp1.archs.concat x.architecture }
    else sp1

def specList (sp : SpecSt) (kind : ArtKind) (xs : List ArtDesc) : SpecSt :=
  xs.foldl (fun a x => specStep a kind x) sp

def specJob (sp : SpecSt) (info : GJobInfo) : SpecSt :=
  specList (specList (specList (specList sp ArtKind.TOOL info.needed.tools)
    ArtKind.PACKAGE info.needed.pkgs) ArtKind.TOOL info.products.tools)
    ArtKind.PACKAGE info.products.pkgs

def specGraph (graph : List (String × GJobInfo)) : SpecSt :=
  graph.foldl (fun a nj => specJob a nj.2) {}

/-- The distinct non-noarch architectures appearing among the tool and
package artifacts a graph creates (first-seen descriptor per name). -/
def graphConcreteArchs (graph : List (String × GJobInfo)) : List String :=
  (specGraph graph).archs

/- ----------------------------------------------------------------- -/
/- Section 6: chunk upload and reassembly (worker upload, cmd_chunk) -/
/- ----------------------------------------------------------------- -/

/-- The byte literal b"initial". -/
def initialBytes : List Nat := [105, 110, 105, 116, 105, 97, 108]

/-- ChunkMessage from messages.py. -/
structure ChunkMsg where
  lastHash : List Nat
  data : List Nat
deriving DecidableEq, Repr

/-- The staging state cmd_chunk keeps per stream: the bytes written to the
staging file and the bytes fed to the BLAKE2b hasher (fd and path are
filesystem identities; their content is what matters). -/
structure ChunkStore where
  file : List Nat := []
  hasher : List Nat := []
deriving DecidableEq, Repr

/-- The validator of ChunkMessage.last_hash: the literal b"initial" or a
64-byte digest. -/
def chunkLastHashOk (lh : List Nat) : Bool :=
  lh = initialBytes || lh.length = 64

/-- cmd_chunk from the coordinator, parameterised by the digest function H
and the serialisation pack (the handler receives value = pack msg and
unpacks it back to msg).  On b"initial" a fresh staging file and hasher
are created; otherwise a missing table entry drops the chunk; the entry is
rekeyed under blake2b(value) and the data appended to file and hasher. -/
def cmdChunk (H : List Nat → List Nat) (pack : ChunkMsg → List Nat)
    (table : List (List Nat × ChunkStore)) (msg : ChunkMsg) :
    List (List Nat × ChunkStore) :=
  let value := pack msg
  let taken : Option (ChunkStore × List (List Nat × ChunkStore)) :=
    if msg.lastHash = initialBytes then
      some ({}, table)
    else
      match alistGet table msg.lastHash with
      | none => none
      | some st => some (st, alistErase table msg.lastHash)
  match taken with
  | none => table
  | some (store, t1) =>
    let digest := H value
    alistSet t1 digest
      { file := store.file ++ msg.data, hasher := store.hasher ++ msg.data }

/-- Sequential processing of a list of chunk messages by cmd_chunk. -/
def runChunks (H : List Nat → List Nat) (pack : ChunkMsg → List Nat)
    (table : List (List Nat × ChunkStore)) (msgs : List ChunkMsg) :
    List (List Nat × ChunkStore) :=
  msgs.foldl (cmdChunk H pack) table

/-- The chunk loop of the worker's upload: one ChunkMessage per chunk,
last_hash starting at b"initial" and thereafter the digest of the
previous chunk message's serialised bytes.  Returns the messages and the
final last_hash. -/
def uploadChunks (H : List Nat → List Nat) (pack : ChunkMsg → List Nat) :
    List (List Nat) → List Nat → List ChunkMsg × List Nat
  | [], lh => ([], lh)
  | c :: cs, lh =>
    let m : ChunkMsg := { lastHash := lh, data := c }
    let r := uploadChunks H pack cs (H (pack m))
    (m :: r.1, r.2)

/-- CHUNK_SIZE from the worker. -/
def CHUNK_SIZE : Nat := 32 * 1024

/-- The 32 KiB read loop of upload, as the chunk partition it produces. -/
def chunksOf (n : Nat) (content : List Nat) : List (List Nat) :=
  if h : n = 0 ∨ content = [] then []
  else content.take n :: chunksOf n (content.drop n)
termination_by content.length
decreasing_by
  rcases content with _ | ⟨a, t⟩
  · simp at h
  · simp only [List.length_drop, List.length_cons]
    omega

/- ----------------------------------------------------------------- -/
/- Section 7: intake messages and handlers (cmd_artifact, cmd_job)   -/
/- ----------------------------------------------------------------- -/

/-- ArtifactMessage from messages.py.  artifact_type is the validated
enum; last_hash None models both an absent and a null field. -/
structure ArtifactMsg where
  project : String
  atype : ArtKind
  artifact : String
  success : Bool
  filename : Option String := none
  lastHash : Option (List Nat) := none
deriving DecidableEq, Repr

/-- The ArtifactMessage validator clause for last_hash:
V.Nullable(_is_blake2b_digest) accepts absence, null, or exactly 64
bytes. -/
def artifactMsgLastHashOk (lh : Option (List Nat)) : Bool :=
  match lh with
  | none => true
  | some d => d.length = 64

/-- JobCompletionMessage from messages.py. -/
structure JobCompletionMsg where
  project : String
  job : String
  exitCode : Int
  runTime : Int
deriving DecidableEq, Repr

/-- A configured project as the intake handlers see it: its current build,
if any (static configuration fields are not consulted by the modelled
paths). -/
structure Proj where
  current : Option Build := none
deriving DecidableEq, Repr

/-- The coordinator state the intake loop works on: the projects mapping
and the process-wide chunk-reassembly table. -/
structure Coord where
  projects : List (String × Proj) := []
  chunkTable : List (List Nat × ChunkStore) := []
deriving DecidableEq, Repr

/-- artifact.received = True; artifact.failed = b, the assignments of
cmd_artifact on a located artifact. -/
def Build.setArtifactBits (g : Build) (p : Nat) (rec fl : Bool) : Build :=
  match g.artifacts[p]? with
  | none => g
  | some a =>
    { g with artifacts := g.artifacts.set p { a with received := rec, failed := fl } }

/-- artifact.failed = True alone, the assignment of cmd_artifact's
exception handler. -/
def Build.setArtifactFailedBit (g : Build) (p : Nat) : Build :=
  match g.artifacts[p]? with
  | none => g
  | some a => { g with artifacts := g.artifacts.set p { a with failed := true } }

def Coord.setCurrent (c : Coord) (name : String) (run : Build) : Coord :=
  { c with projects := alistSet c.projects name { current := some run } }

/-- Which control path cmd_artifact took.  deposited abstracts the
filesystem deposit of lines 940 onward (repo move, xbps-rindex, rolling
copy), recording the consumed staging store; the further failure handling
inside that branch is not modelled because no modelled claim reaches
it. -/
inductive IntakeOutcome where
  | ignored
  | failureRecorded
  | keyErrorRaised
  | deposited (store : ChunkStore)
  | validationError
deriving DecidableEq, Repr

/-- cmd_artifact from the coordinator, after message validation.  Unknown
project, missing current build, or an artifact name outside the selected
set return silently.  Otherwise the artifact is marked received with
failed = not success; on failure the solver is woken and the handler
returns; on success the chunk-table entry under last_hash is consumed, and
a missing entry raises KeyError, whose handler sets the failed bit, wakes
the solver and re-raises. -/
def cmdArtifact (c : Coord) (m : ArtifactMsg) : Coord × IntakeOutcome :=
  match alistGet c.projects m.project with
  | none => (c, IntakeOutcome.ignored)
  | some proj =>
    match proj.current with
    | none => (c, IntakeOutcome.ignored)
    | some run =>
      let aset := match m.atype with
        | ArtKind.TOOL => run.toolSet
        | ArtKind.FILE => run.fileSet
        | ArtKind.PACKAGE => run.pkgSet
      match alistGet aset m.artifact with
      | none => (c, IntakeOutcome.ignored)
      | some idx =>
        let run1 := run.setArtifactBits idx true (!m.success)
        if !m.success then
          (c.setCurrent m.project ({ run1 with artifactReceived := true }),
           IntakeOutcome.failureRecorded)
        else
          match m.lastHash.bind (alistGet c.chunkTable) with
          | none =>
            let run2 := { run1.setArtifactFailedBit idx with artifactReceived := true }
            (c.setCurrent m.project run2, IntakeOutcome.keyErrorRaised)
          | some store =>
            let t1 := alistErase c.chunkTable (m.lastHash.getD [])
            let c1 := { c with chunkTable := t1 }
            (c1.setCurrent m.project ({ run1 with artifactReceived := true }),
             IntakeOutcome.deposited store)

/-- The intake's handling of an artifact frame: ArtifactMessage.unpack
validates first (typed fields make every clause but the last_hash check
trivially true); a validation failure propagates out of cmd_artifact
before any state is touched and the intake loop logs and continues. -/
def intakeArtifact (c : Coord) (m : ArtifactMsg) : Coord × IntakeOutcome :=
  if artifactMsgLastHashOk m.lastHash then cmdArtifact c m
  else (c, IntakeOutcome.validationError)

/-- cmd_job from the coordinator: unknown project or no current build
return silently; an unknown job name raises KeyError; otherwise the status
becomes SUCCESS on exit code zero, else IGNORED_FAILURE when the job is
unstable and FAILED when not, exit_code and run_time are recorded, and the
solver is woken (the .info dump and store_status are filesystem
output). -/
def cmdJob (c : Coord) (m : JobCompletionMsg) : Except String Coord :=
  match alistGet c.projects m.project with
  | none => .ok c
  | some proj =>
    match proj.current with
    | none => .ok c
    | some run =>
      match alistGet run.jobs m.job with
      | none => .error "KeyError"
      | some jb =>
        let status := if m.exitCode = 0 then JobStatus.SUCCESS
          else if jb.unstable then JobStatus.IGNORED_FAILURE
          else JobStatus.FAILED
        let jb1 := { jb with status := status, exitCode := some m.exitCode,
                             runTime := some m.runTime }
        let run1 := { run with jobs := alistSet run.jobs m.job jb1,
                               artifactReceived := true }
        .ok (c.setCurrent m.project run1)

/-- Lookup of a job of a project's current build. -/
def Coord.getJob (c : Coord) (pn jn : String) : Option BJob :=
  match alistGet c.projects pn with
  | none => none
  | some proj =>
    match proj.current with
    | none => none
    | some run => alistGet run.jobs jn

/-- Lookup of an artifact of a project's current build by arena index. -/
def coordArtifact (c : Coord) (pn : String) (idx : Nat) : Option Artifact :=
  match alistGet c.projects pn with
  | none => none
  | some proj =>
    match proj.current with
    | none => none
    | some run => run.artifacts[idx]?

/- ----------------------------------------------------------------- -/
/- Section 8: worker upload driver (upload)                          -/
/- ----------------------------------------------------------------- -/

/-- upload from the worker: stream the file content in CHUNK_SIZE chunks
with the BLAKE2b chain, then send
ArtifactMessage(project, kind, name, True, basename, last_hash). -/
def uploadFile (H : List Nat → List Nat) (pack : ChunkMsg → List Nat)
    (project : String) (kind : ArtKind) (name : String) (basename : String)
    (content : List Nat) : List ChunkMsg × ArtifactMsg :=
  let r := uploadChunks H pack (chunksOf CHUNK_SIZE content) initialBytes
  (r.1, { project := project, atype := kind, artifact := name,
          success := true, filename := some basename, lastHash := some r.2 })

/- ----------------------------------------------------------------- -/
/- Section 9: concrete inputs used by counterexamples and witnesses  -/
/- ----------------------------------------------------------------- -/

/-- A three-job graph: job 0 (WAITING) has failed dependency 0 and
products 1 (already failed but not received) and 2 (fresh); job 1 is
RUNNING and consumes product 2; job 2 is WAITING and consumes product
1. -/
def exGraphC3 : Build :=
  { artifacts :=
      [{ kind := ArtKind.PACKAGE, name := "d", version := some "1",
         architecture := Arch.strv "x86_64", received := true, failed := true },
       { kind := ArtKind.PACKAGE, name := "p1", version := some "1",
         architecture := Arch.strv "x86_64", received := false, failed := true },
       { kind := ArtKind.PACKAGE, name := "p2", version := some "1",
         architecture := Arch.strv "x86_64" }],
    jobs :=
      [("j0", { deps := [0], products := [1, 2] }),
       ("b", { deps := [2], status := JobStatus.RUNNING }),
       ("c", { deps := [1] })] }

/-- A coordinator state with one project whose current build expects
package artifact a at arena index 0, with an empty chunk table. -/
def exRunC4 : Build :=
  { artifacts := [{ kind := ArtKind.PACKAGE, name := "a",
                    version := some "1",
                    architecture := Arch.strv "x86_64" }],
    pkgSet := [("a", 0)] }

/-- The coordinator state wrapping exRunC4, with an empty chunk table. -/
def exCoordC4 : Coord :=
  { projects := [("p", { current := some exRunC4 })], chunkTable := [] }

/-- A success artifact message whose last_hash matches no chunk-table
entry. -/
def exMsgC4 : ArtifactMsg :=
  { project := "p", atype := ArtKind.PACKAGE, artifact := "a",
    success := true, filename := some "a-1.x86_64.xbps",
    lastHash := some (List.replicate 64 7) }

/-- A graph with one job producing tool a on x86_64 and noarch tool b. -/
def exGraphC7 : List (String × GJobInfo) :=
  [("tool:a", { products := { tools :=
      [{ name := "a", version := "1", architecture := "x86_64" },
       { name := "b", version := "1", architecture := "noarch" }] } })]

/-- The ingestion state of exGraphC7 (its set_graph run succeeds). -/
def exStC7 : Build :=
  ((setGraphJobs "r" exGraphC7 "c").toOption).getD {}

/-- A graph whose two jobs declare packages on two distinct concrete
architectures. -/
def exGraphC6 : List (String × GJobInfo) :=
  [("pkg:a", { products := { pkgs :=
      [{ name := "a", version := "1", architecture := "x86_64" }] } }),
   ("pkg:b", { products := { pkgs :=
      [{ name := "b", version := "1", architecture := "aarch64" }] } })]

/-- A coordinator state for the completion-message witness: one project,
one RUNNING unstable job. -/
def exRunC8 : Build :=
  { jobs := [("pkg:x", { unstable := true, status := JobStatus.RUNNING })] }

/-- The coordinator state wrapping exRunC8. -/
def exCoordC8 : Coord :=
  { projects := [("p", { current := some exRunC8 })] }

/-- A completion message with a nonzero exit code for the witness job. -/
def exMsgC8 : JobCompletionMsg :=
  { project := "p", job := "pkg:x", exitCode := 3, runTime := 11 }

/-- A digest function for witnesses: 64 copies of the byte sum. -/
def wHash (x : List Nat) : List Nat :=
  List.replicate 64 (x.foldl (fun a b => a + b) 0)

/-- A serialisation function for witnesses. -/
def wPack (m : ChunkMsg) : List Nat :=
  m.lastHash ++ m.data

/-- Invariant tying the set_graph ingestion state to the
specification-side architecture bookkeeping: the tool/package dictionaries
list exactly the seen names, arch_set is the list of collected distinct
architectures, at most one architecture has been collected, and every
stored tool/package artifact has a string architecture that is noarch or
already collected. -/
structure ArchInv (st : Build) (sp : SpecSt) : Prop where
  toolNames : st.toolSet.map Prod.fst = sp.seenT
  pkgNames : st.pkgSet.map Prod.fst = sp.seenP
  archEq : st.archSet = sp.archs.map some
  archLe : sp.archs.length ≤ 1
  toolArch : ∀ nv ∈ st.toolSet, ∃ s : String,
    ((st.artifacts[nv.2]?).map Artifact.architecture) = some (Arch.strv s) ∧
    (s = "noarch" ∨ some s ∈ st.archSet)
  pkgArch : ∀ nv ∈ st.pkgSet, ∃ s : String,
    ((st.artifacts[nv.2]?).map Artifact.architecture) = some (Arch.strv s) ∧
    (s = "noarch" ∨ some s ∈ st.archSet)

/-- Simulation relation between a partially ingested graph and the
specification fold: either ingestion is still ok and the invariant holds,
or it failed with the multiarch error and at least two distinct concrete
architectures have appeared. -/
def SimOk (r : Except String (Build × List Nat)) (sp : SpecSt) : Prop :=
  (∃ st rs, r = .ok (st, rs) ∧ ArchInv st sp) ∨
  (r = .error "multiarch builds unsupported" ∧ 2 ≤ sp.archs.length)

/- ----------------------------------------------------------------- -/
/- Theorems                                                          -/
/- ----------------------------------------------------------------- -/

theorem alistGet_alistSet_self {κ α : Type} [DecidableEq κ]
    (l : List (κ × α)) (k : κ) (v : α) :
    alistGet (alistSet l k v) k = some v := by
  induction l with
  | nil => simp [alistSet, alistGet]
  | cons kv t ih =>
    obtain ⟨k', v'⟩ := kv
    by_cases hk : k' = k
    · subst hk
      simp [alistSet, alistGet]
    · simp [alistSet, alistGet, hk, ih]

theorem getElem?_set_same {α : Type} (l : List α) (i : Nat) (x y : α)
    (h : l[i]? = some x) : (l.set i y)[i]? = some y := by
  simp [List.getElem?_set_self', h]

theorem getElem?_isSome_lt {α : Type} {l : List α} {i : Nat}
    (h : (l[i]?).isSome) : i < l.length := by
  by_contra hno
  rw [List.getElem?_eq_none (by omega)] at h
  simp at h

/-- C1.  The spec's JobMessage (with commits_object, mirror_root and
distfile_path, without rolling_ids) is what solve_project constructs, but
messages.py declares a JobMessage without those fields and with a required
rolling_ids, so the attrs-generated constructor rejects the call with
TypeError and the claimed message can never be built or sent: the message
codec and the solver disagree about the JobMessage shape. -/
theorem xbbs_C1_jobmessage_skew :
    attrsInitAccepts jobMessageFields solveProjectJobMessageKwargs = false ∧
    "commits_object" ∈ solveProjectJobMessageKwargs ∧
    "mirror_root" ∈ solveProjectJobMessageKwargs ∧
    "distfile_path" ∈ solveProjectJobMessageKwargs ∧
    "commits_object" ∉ jobMessageFields.map Prod.fst ∧
    "mirror_root" ∉ jobMessageFields.map Prod.fst ∧
    "distfile_path" ∉ jobMessageFields.map Prod.fst ∧
    ("rolling_ids", true) ∈ jobMessageFields ∧
    "rolling_ids" ∉ solveProjectJobMessageKwargs := by
  decide

/-- C5.  The BuildState enum of messages.py has exactly the seven members
SCHEDULED, FETCH, SETUP, CALCULATING, SETUP_REPOS, RUNNING and DONE; there
is no UPDATING_MIRRORS member, so for every project with mirror_root set
the build driver's attempted transition to UPDATING_MIRRORS resolves a
missing attribute and raises AttributeError instead. -/
theorem xbbs_C5_updating_mirrors_missing :
    buildStateMembers.map BuildState.memberName =
      ["SCHEDULED", "FETCH", "SETUP", "CALCULATING", "SETUP_REPOS",
       "RUNNING", "DONE"] ∧
    buildStateOfName runProjectMirrorStateName = none ∧
    (∀ r : String,
      runProjectMirrorStep (some r) =
        .error "AttributeError: UPDATING_MIRRORS") := by
  refine ⟨rfl, rfl, fun r => rfl⟩

/-- C9.  cmd_build's first statement resolves msgs.BuildMessage, but
messages.py defines no BuildMessage class (its schedule message is
ScheduleMessage(project, delay)), so every build command raises
AttributeError and the command loop replies 500: the claimed 409 refusal
and Build creation are unreachable. -/
theorem xbbs_C9_buildmessage_missing :
    cmdBuildMessageClassName ∉ messagesModuleClasses ∧
    cmdBuildUnpackStep =
      .error "AttributeError: module xbbs.messages has no attribute" ∧
    commandLoopReplyCode cmdBuildUnpackStep = 500 := by
  refine ⟨by decide, rfl, rfl⟩

/-- C10.  For a zero-length artifact file the worker's upload sends no
chunk messages and an ArtifactMessage whose last_hash is the literal
b"initial"; the ArtifactMessage validator accepts last_hash only when
absent, null or 64 bytes, so the message fails validation at the intake
and the coordinator state is untouched: a zero-byte artifact is never
deposited. -/
theorem xbbs_C10_zero_byte_artifact (H : List Nat → List Nat)
    (pack : ChunkMsg → List Nat) (project name basename : String)
    (kind : ArtKind) (c : Coord) :
    (uploadFile H pack project kind name basename []).1 = [] ∧
    (uploadFile H pack project kind name basename []).2.lastHash =
      some initialBytes ∧
    artifactMsgLastHashOk
      (uploadFile H pack project kind name basename []).2.lastHash = false ∧
    intakeArtifact c (uploadFile H pack project kind name basename []).2 =
      (c, IntakeOutcome.validationError) := by
  have h0 : chunksOf CHUNK_SIZE ([] : List Nat) = [] := by
    rw [chunksOf]
    simp
  refine ⟨?_, ?_, ?_, ?_⟩ <;>
    simp [uploadFile, h0, uploadChunks, artifactMsgLastHashOk, initialBytes,
      intakeArtifact]

/-- C3 counterexample.  In exGraphC3, job 0 has a failed dependency, and
after Job.fail on it: its product 1 (already failed but unreceived) is
still not received, the consumer of product 2 (which was RUNNING) is left
in WAITING_FOR_DONE, and the consumer of product 1 is left WAITING; both
consumers are deps-of-consumers reachable yet not in a terminal state, so
the claim as stated is false. -/
theorem xbbs_C3_counterexample :
    (0 ∈ exGraphC3.jobDeps 0 ∧ exGraphC3.artFailed 0 = true) ∧
    1 ∈ exGraphC3.jobProducts 0 ∧
    (exGraphC3.jobFail 0).artReceived 1 = false ∧
    (2 ∈ exGraphC3.jobProducts 0 ∧ 2 ∈ exGraphC3.jobDeps 1) ∧
    ((exGraphC3.jobFail 0).jobStatus 1).terminating = false ∧
    (1 ∈ exGraphC3.jobProducts 0 ∧ 1 ∈ exGraphC3.jobDeps 2) ∧
    ((exGraphC3.jobFail 0).jobStatus 2).terminating = false := by
  decide

/-- C4 counterexample.  A success ArtifactMessage for a known artifact
whose last_hash misses the chunk table is not silently discarded with the
bits unchanged: the artifact's received and failed bits both become true
and the KeyError propagates to the intake loop. -/
theorem xbbs_C4_counterexample :
    (cmdArtifact exCoordC4 exMsgC4).2 = IntakeOutcome.keyErrorRaised ∧
    (coordArtifact exCoordC4 "p" 0).map
      (fun a => (a.received, a.failed)) = some (false, false) ∧
    (coordArtifact (cmdArtifact exCoordC4 exMsgC4).1 "p" 0).map
      (fun a => (a.received, a.failed)) = some (true, true) ∧
    exMsgC4.success = true ∧
    (cmdArtifact exCoordC4 exMsgC4).1.chunkTable = [] := by
  decide

/-- C4 amended.  When a success ArtifactMessage names a known project with
a current build and an artifact of the matching set, but its last_hash
matches no chunk-table entry, cmd_artifact marks the artifact
received=true and (through the KeyError handler) failed=true, wakes the
solver, consumes nothing from the chunk table, deposits nothing, and the
KeyError propagates to the intake loop (which logs and continues). -/
theorem xbbs_C4_table_miss_amended (c : Coord) (m : ArtifactMsg)
    (proj : Proj) (run : Build) (idx : Nat)
    (h1 : alistGet c.projects m.project = some proj)
    (h2 : proj.current = some run)
    (h3 : alistGet (run.aset m.atype) m.artifact = some idx)
    (h4 : m.success = true)
    (h5 : m.lastHash.bind (alistGet c.chunkTable) = none)
    (h6 : (run.artifacts[idx]?).isSome) :
    (cmdArtifact c m).2 = IntakeOutcome.keyErrorRaised ∧
    (∃ a', coordArtifact (cmdArtifact c m).1 m.project idx = some a' ∧
      a'.received = true ∧ a'.failed = true) ∧
    (cmdArtifact c m).1.chunkTable = c.chunkTable := by
  obtain ⟨a, ha⟩ := Option.isSome_iff_exists.mp h6
  have haset : (match m.atype with
      | ArtKind.TOOL => run.toolSet
      | ArtKind.FILE => run.fileSet
      | ArtKind.PACKAGE => run.pkgSet) = run.aset m.atype := by
    cases m.atype <;> rfl
  have hbits : (run.setArtifactBits idx true false).artifacts[idx]?
      = some { a with received := true, failed := false } := by
    unfold Build.setArtifactBits
    rw [ha]
    exact getElem?_set_same _ _ _ _ ha
  have hfail : ((run.setArtifactBits idx true false).setArtifactFailedBit
      idx).artifacts[idx]?
      = some { a with received := true, failed := true } := by
    unfold Build.setArtifactFailedBit
    rw [hbits]
    exact getElem?_set_same _ _ _ _ hbits
  simp only [cmdArtifact, h1, h2, haset, h3, h4, h5]
  refine ⟨rfl, ⟨{ a with received := true, failed := true }, ?_, rfl, rfl⟩, rfl⟩
  simp [coordArtifact, Coord.setCurrent, alistGet_alistSet_self, hfail]

/-- C4 witness for the amended theorem, at the concrete counterexample
state. -/
theorem xbbs_C4_table_miss_amended_witness :
    (cmdArtifact exCoordC4 exMsgC4).2 = IntakeOutcome.keyErrorRaised ∧
    (∃ a', coordArtifact (cmdArtifact exCoordC4 exMsgC4).1 exMsgC4.project 0
        = some a' ∧ a'.received = true ∧ a'.failed = true) ∧
    (cmdArtifact exCoordC4 exMsgC4).1.chunkTable = exCoordC4.chunkTable :=
  xbbs_C4_table_miss_amended exCoordC4 exMsgC4 { current := some exRunC4 }
    exRunC4 0 (by decide) rfl (by decide) (by decide) (by decide) (by decide)

/-- C8.  On a JobCompletionMessage for a job of the current build, the
job's status becomes SUCCESS exactly when exit_code is zero, otherwise
IGNORED_FAILURE exactly when the job is unstable and FAILED exactly when
it is not, and the message's exit_code and run_time are recorded on the
job. -/
theorem xbbs_C8_completion_status (c : Coord) (m : JobCompletionMsg)
    (proj : Proj) (run : Build) (jb : BJob)
    (h1 : alistGet c.projects m.project = some proj)
    (h2 : proj.current = some run)
    (h3 : alistGet run.jobs m.job = some jb) :
    ∃ c' jb', cmdJob c m = .ok c' ∧ c'.getJob m.project m.job = some jb' ∧
      (jb'.status = JobStatus.SUCCESS ↔ m.exitCode = 0) ∧
      (jb'.status = JobStatus.IGNORED_FAILURE ↔
        m.exitCode ≠ 0 ∧ jb.unstable = true) ∧
      (jb'.status = JobStatus.FAILED ↔ m.exitCode ≠ 0 ∧ jb.unstable = false) ∧
      jb'.exitCode = some m.exitCode ∧ jb'.runTime = some m.runTime := by
  let jb1 : BJob :=
    { jb with
      status := if m.exitCode = 0 then JobStatus.SUCCESS
        else if jb.unstable then JobStatus.IGNORED_FAILURE
        else JobStatus.FAILED,
      exitCode := some m.exitCode, runTime := some m.runTime }
  let run1 : Build :=
    { run with jobs := alistSet run.jobs m.job jb1, artifactReceived := true }
  refine ⟨c.setCurrent m.project run1, jb1, ?_, ?_, ?_, ?_, ?_, rfl, rfl⟩
  · simp only [cmdJob, h1, h2, h3]
  · simp [Coord.getJob, Coord.setCurrent, alistGet_alistSet_self]
  · by_cases h0 : m.exitCode = 0 <;> cases hu : jb.unstable <;>
      simp [h0, hu]
  · by_cases h0 : m.exitCode = 0 <;> cases hu : jb.unstable <;>
      simp [h0, hu]
  · by_cases h0 : m.exitCode = 0 <;> cases hu : jb.unstable <;>
      simp [h0, hu]

/-- C8 witness: an unstable RUNNING job completing with exit code 3 ends
IGNORED_FAILURE with exit code and run time recorded. -/
theorem xbbs_C8_completion_status_witness :
    ∃ c' jb', cmdJob exCoordC8 exMsgC8 = .ok c' ∧
      c'.getJob exMsgC8.project exMsgC8.job = some jb' ∧
      (jb'.status = JobStatus.SUCCESS ↔ exMsgC8.exitCode = 0) ∧
      (jb'.status = JobStatus.IGNORED_FAILURE ↔
        exMsgC8.exitCode ≠ 0 ∧
          ({ unstable := true, status := JobStatus.RUNNING } : BJob).unstable
            = true) ∧
      (jb'.status = JobStatus.FAILED ↔ exMsgC8.exitCode ≠ 0 ∧
          ({ unstable := true, status := JobStatus.RUNNING } : BJob).unstable
            = false) ∧
      jb'.exitCode = some exMsgC8.exitCode ∧
      jb'.runTime = some exMsgC8.runTime :=
  xbbs_C8_completion_status exCoordC8 exMsgC8
    { current := some exRunC8 } exRunC8
    { unstable := true, status := JobStatus.RUNNING }
    (by decide) rfl (by decide)

theorem uploadChain (H : List Nat → List Nat) (pack : ChunkMsg → List Nat)
    (hH : ∀ x, (H x).length = 64) (cs : List (List Nat)) :
    ∀ (lh : List Nat) (s : ChunkStore), lh.length = 64 →
      runChunks H pack [(lh, s)] (uploadChunks H pack cs lh).1
        = [((uploadChunks H pack cs lh).2,
            { file := s.file ++ cs.flatten, hasher := s.hasher ++ cs.flatten })] := by
  induction cs with
  | nil =>
    intro lh s _
    simp [uploadChunks, runChunks]
  | cons c cs ih =>
    intro lh s hlh
    have hne : ¬ lh = initialBytes := by
      intro he
      rw [he] at hlh
      simp [initialBytes] at hlh
    have hstep : cmdChunk H pack [(lh, s)] { lastHash := lh, data := c }
        = [(H (pack { lastHash := lh, data := c }),
            { file := s.file ++ c, hasher := s.hasher ++ c })] := by
      simp [cmdChunk, hne, alistGet, alistErase, alistSet]
    have hrest := ih (H (pack { lastHash := lh, data := c }))
      { file := s.file ++ c, hasher := s.hasher ++ c } (hH _)
    simp only [uploadChunks, runChunks, List.foldl_cons] at hrest ⊢
    rw [hstep, hrest]
    simp [List.append_assoc]

/-- C2.  Chunk-stream round trip: for any byte sequence split into
non-empty chunks, if the sender emits the chained ChunkMessages of upload
(last_hash = b"initial", then the digest of the previous message's
serialised bytes) and the receiver runs cmd_chunk on each, the chunk table
ends with exactly one entry, keyed by the final digest, whose staging-file
bytes and hasher input are both exactly the original sequence (so the
receiver's hasher digest is the digest of the whole sequence). -/
theorem xbbs_C2_chunk_roundtrip (H : List Nat → List Nat)
    (pack : ChunkMsg → List Nat) (hH : ∀ x, (H x).length = 64)
    (cs : List (List Nat)) (hcs : cs ≠ []) (hchunks : ∀ c ∈ cs, c ≠ []) :
    runChunks H pack [] (uploadChunks H pack cs initialBytes).1
      = [((uploadChunks H pack cs initialBytes).2,
          { file := cs.flatten, hasher := cs.flatten })] := by
  obtain ⟨c, cs', rfl⟩ := List.exists_cons_of_ne_nil hcs
  have hstep : cmdChunk H pack [] { lastHash := initialBytes, data := c }
      = [(H (pack { lastHash := initialBytes, data := c }),
          { file := c, hasher := c })] := by
    simp [cmdChunk, alistSet]
  have hrest := uploadChain H pack hH cs'
    (H (pack { lastHash := initialBytes, data := c })) { file := c, hasher := c }
    (hH _)
  simp only [uploadChunks, runChunks, List.foldl_cons] at hrest ⊢
  rw [hstep, hrest]
  simp

/-- C2 witness at a concrete hash, serialiser and chunk list. -/
theorem xbbs_C2_chunk_roundtrip_witness :
    runChunks wHash wPack [] (uploadChunks wHash wPack [[1], [2, 3]] initialBytes).1
      = [((uploadChunks wHash wPack [[1], [2, 3]] initialBytes).2,
          { file := [1, 2, 3], hasher := [1, 2, 3] })] :=
  xbbs_C2_chunk_roundtrip wHash wPack
    (fun x => by simp [wHash]) [[1], [2, 3]] (by decide) (by decide)

theorem alistGet_mem {κ α : Type} [DecidableEq κ] {l : List (κ × α)} {k : κ}
    {v : α} (h : alistGet l k = some v) : (k, v) ∈ l := by
  induction l with
  | nil => simp [alistGet] at h
  | cons kv t ih =>
    obtain ⟨k', v'⟩ := kv
    by_cases hk : k' = k
    · subst hk
      simp [alistGet] at h
      simp [h]
    · simp [alistGet, hk] at h
      exact List.mem_cons_of_mem _ (ih h)

theorem alistGet_none_iff {κ α : Type} [DecidableEq κ] (l : List (κ × α))
    (k : κ) : alistGet l k = none ↔ k ∉ l.map Prod.fst := by
  induction l with
  | nil => simp [alistGet]
  | cons kv t ih =>
    obtain ⟨k', v'⟩ := kv
    by_cases hk : k' = k
    · subst hk
      simp [alistGet]
    · simp [alistGet, hk, ih, Ne.symm hk]

theorem getElem?_concat_self {α : Type} (l : List α) (a : α) :
    (l.concat a)[l.length]? = some a := by
  rw [List.concat_eq_append, ← List.get?_eq_getElem?]
  exact List.get?_concat_length l a

theorem getElem?_concat_of_some {α : Type} {l : List α} {n : Nat} {x : α}
    (a : α) (h : l[n]? = some x) : (l.concat a)[n]? = some x := by
  have hlt : n < l.length := getElem?_isSome_lt (by rw [h]; rfl)
  rw [List.concat_eq_append, List.getElem?_append, if_pos hlt]
  exact h

theorem mem_concat_elim {α : Type} {x a : α} {l : List α}
    (h : x ∈ l.concat a) : x ∈ l ∨ x = a := by
  rw [List.concat_eq_append] at h
  rcases List.mem_append.mp h with h | h
  · exact Or.inl h
  · simp at h
    exact Or.inr h

theorem addSeen_archs (sp : SpecSt) (kind : ArtKind) (n : String) :
    (sp.addSeen kind n).archs = sp.archs := by
  cases kind <;> rfl

theorem specStep_seen (sp : SpecSt) (kind : ArtKind) (x : ArtDesc)
    (h : x.name ∈ sp.seen kind) : specStep sp kind x = sp := by
  simp [specStep, h]

theorem specStep_archs_le (sp : SpecSt) (kind : ArtKind) (x : ArtDesc) :
    sp.archs.length ≤ (specStep sp kind x).archs.length := by
  unfold specStep
  split
  · exact le_refl _
  · split
    · simp [addSeen_archs]
    · simp [addSeen_archs]

theorem specList_archs_le (kind : ArtKind) (xs : List ArtDesc) :
    ∀ sp : SpecSt, sp.archs.length ≤ (specList sp kind xs).archs.length := by
  induction xs with
  | nil => intro sp; exact le_refl _
  | cons x t ih =>
    intro sp
    calc sp.archs.length ≤ (specStep sp kind x).archs.length :=
          specStep_archs_le sp kind x
      _ ≤ _ := ih _

theorem specJob_archs_le (info : GJobInfo) (sp : SpecSt) :
    sp.archs.length ≤ (specJob sp info).archs.length := by
  unfold specJob
  calc sp.archs.length
      ≤ (specList sp ArtKind.TOOL info.needed.tools).archs.length :=
        specList_archs_le _ _ _
    _ ≤ _ := by
        calc _ ≤ _ := specList_archs_le ArtKind.PACKAGE info.needed.pkgs _
          _ ≤ _ := by
            calc _ ≤ _ := specList_archs_le ArtKind.TOOL info.products.tools _
              _ ≤ _ := specList_archs_le ArtKind.PACKAGE info.products.pkgs _

theorem handleArtifact_sim_tool (st : Build) (sp : SpecSt) (rs : List Nat)
    (x : ArtDesc) (inv : ArchInv st sp) :
    SimOk (handleArtifact st ArtKind.TOOL rs x) (specStep sp ArtKind.TOOL x) := by
  cases hfind : alistGet st.toolSet x.name with
  | some i =>
    have hmem : (x.name, i) ∈ st.toolSet := alistGet_mem hfind
    have hseen : x.name ∈ sp.seen ArtKind.TOOL := by
      show x.name ∈ sp.seenT
      rw [← inv.toolNames]
      exact List.mem_map_of_mem Prod.fst hmem
    rw [specStep_seen sp ArtKind.TOOL x hseen]
    obtain ⟨s, hs, hcase⟩ := inv.toolArch _ hmem
    have hs2 : Option.map Artifact.architecture st.artifacts[i]?
        = some (Arch.strv s) := hs
    by_cases hno : s = "noarch"
    · left
      refine ⟨st, rs.concat i, ?_, inv⟩
      subst hno
      simp [handleArtifact, Build.aset, hfind, hs2]
    · have hmemarch : some s ∈ st.archSet := hcase.resolve_left hno
      left
      refine ⟨st, rs.concat i, ?_, inv⟩
      simp [handleArtifact, Build.aset, hfind, hs2, hno, archHashable, hmemarch]
  | none =>
    have hnotseen : x.name ∉ sp.seen ArtKind.TOOL := by
      show x.name ∉ sp.seenT
      rw [← inv.toolNames]
      exact (alistGet_none_iff _ _).mp hfind
    have hget : ((st.artifacts.concat
        { kind := ArtKind.TOOL, name := x.name, version := some x.version,
          architecture := Arch.strv x.architecture })[st.artifacts.length]?)
        = some { kind := ArtKind.TOOL, name := x.name,
                 version := some x.version,
                 architecture := Arch.strv x.architecture } :=
      getElem?_concat_self _ _
    by_cases hno : x.architecture = "noarch"
    · left
      refine ⟨{ st with
          artifacts := st.artifacts.concat
            { kind := ArtKind.TOOL, name := x.name, version := some x.version,
              architecture := Arch.strv x.architecture },
          toolSet := st.toolSet.concat (x.name, st.artifacts.length) },
        rs.concat st.artifacts.length, ?_, ?_⟩
      · simp [handleArtifact, Build.aset, Build.setAset, hfind, hget, hno]
      · rw [specStep, if_neg hnotseen, if_neg (by simp [hno])]
        refine { toolNames := ?seenNew, pkgNames := ?seenOld,
                 archEq := ?ae, archLe := ?al,
                 toolArch := ?archNew, pkgArch := ?archOld }
        case seenNew =>
          show _ = sp.seenT.concat x.name
          simp [← inv.toolNames, List.concat_eq_append]
        case seenOld =>
          show _ = sp.seenP
          exact inv.pkgNames
        case ae =>
          exact inv.archEq
        case al =>
          exact inv.archLe
        case archNew =>
          intro nv hnv
          rcases mem_concat_elim hnv with hold | hnew
          · obtain ⟨s, hsa, hc⟩ := inv.toolArch _ hold
            obtain ⟨a0, ha0, ha0e⟩ : ∃ a0, st.artifacts[nv.2]? = some a0 ∧
                a0.architecture = Arch.strv s := by
              cases hx : st.artifacts[nv.2]? with
              | none => rw [hx] at hsa; simp at hsa
              | some a0 => rw [hx] at hsa; simp at hsa; exact ⟨a0, rfl, hsa⟩
            refine ⟨s, ?_, hc⟩
            have h2 := getElem?_concat_of_some
              { kind := ArtKind.TOOL, name := x.name,
                version := some x.version,
                architecture := Arch.strv x.architecture,
                received := false, failed := false } ha0
            simp only [List.concat_eq_append] at h2 ⊢
            simp [h2, ha0e]
          · subst hnew
            exact ⟨x.architecture, by simp [hget], Or.inl hno⟩
        case archOld =>
          intro nv hnv
          obtain ⟨s, hsa, hc⟩ := inv.pkgArch _ hnv
          obtain ⟨a0, ha0, ha0e⟩ : ∃ a0, st.artifacts[nv.2]? = some a0 ∧
              a0.architecture = Arch.strv s := by
            cases hx : st.artifacts[nv.2]? with
            | none => rw [hx] at hsa; simp at hsa
            | some a0 => rw [hx] at hsa; simp at hsa; exact ⟨a0, rfl, hsa⟩
          refine ⟨s, ?_, hc⟩
          have h2 := getElem?_concat_of_some
            { kind := ArtKind.TOOL, name := x.name,
              version := some x.version,
              architecture := Arch.strv x.architecture,
              received := false, failed := false } ha0
          simp only [List.concat_eq_append] at h2 ⊢
          simp [h2, ha0e]
    · have harchfix : ∀ s : String, (s = "noarch" ∨ some s ∈ st.archSet) →
          ∀ A : List (Option String), st.archSet = [] →
          (s = "noarch" ∨ some s ∈ A) := by
        intro s hsc A hA
        refine hsc.elim Or.inl (fun hmem => ?_)
        rw [hA] at hmem
        simp at hmem
      rcases harchs : sp.archs with _ | ⟨b, t⟩
      · have harchset : st.archSet = [] := by
          rw [inv.archEq, harchs]
          rfl
        left
        refine ⟨{ st with
            artifacts := st.artifacts.concat
              { kind := ArtKind.TOOL, name := x.name,
                version := some x.version,
                architecture := Arch.strv x.architecture },
            toolSet := st.toolSet.concat (x.name, st.artifacts.length),
            archSet := [some x.architecture] },
          rs.concat st.artifacts.length, ?_, ?_⟩
        · simp [handleArtifact, Build.aset, Build.setAset, hfind, hget, hno,
            archHashable, harchset]
        · rw [specStep, if_neg hnotseen, if_pos ⟨hno, by rw [harchs]; simp⟩]
          refine { toolNames := ?seenNew, pkgNames := ?seenOld,
                   archEq := ?ae, archLe := ?al,
                   toolArch := ?archNew, pkgArch := ?archOld }
          case seenNew =>
            show _ = (sp.addSeen ArtKind.TOOL x.name).seenT
            simp [SpecSt.addSeen, ← inv.toolNames, List.concat_eq_append]
          case seenOld =>
            show _ = (sp.addSeen ArtKind.TOOL x.name).seenP
            simpa [SpecSt.addSeen] using inv.pkgNames
          case ae =>
            show [some x.architecture] = _
            simp [SpecSt.addSeen, addSeen_archs, harchs]
          case al =>
            simp [SpecSt.addSeen, addSeen_archs, harchs]
          case archNew =>
            intro nv hnv
            rcases mem_concat_elim hnv with hold | hnew
            · obtain ⟨s, hsa, hc⟩ := inv.toolArch _ hold
              obtain ⟨a0, ha0, ha0e⟩ : ∃ a0, st.artifacts[nv.2]? = some a0 ∧
                  a0.architecture = Arch.strv s := by
                cases hx : st.artifacts[nv.2]? with
                | none => rw [hx] at hsa; simp at hsa
                | some a0 => rw [hx] at hsa; simp at hsa; exact ⟨a0, rfl, hsa⟩
              refine ⟨s, ?_, harchfix s hc _ harchset⟩
              have h2 := getElem?_concat_of_some
                { kind := ArtKind.TOOL, name := x.name,
                  version := some x.version,
                  architecture := Arch.strv x.architecture,
                  received := false, failed := false } ha0
              simp only [List.concat_eq_append] at h2 ⊢
              simp [h2, ha0e]
            · subst hnew
              exact ⟨x.architecture, by simp [hget], Or.inr (by simp)⟩
          case archOld =>
            intro nv hnv
            obtain ⟨s, hsa, hc⟩ := inv.pkgArch _ hnv
            obtain ⟨a0, ha0, ha0e⟩ : ∃ a0, st.artifacts[nv.2]? = some a0 ∧
                a0.architecture = Arch.strv s := by
              cases hx : st.artifacts[nv.2]? with
              | none => rw [hx] at hsa; simp at hsa
              | some a0 => rw [hx] at hsa; simp at hsa; exact ⟨a0, rfl, hsa⟩
            refine ⟨s, ?_, harchfix s hc _ harchset⟩
            have h2 := getElem?_concat_of_some
              { kind := ArtKind.TOOL, name := x.name,
                version := some x.version,
                architecture := Arch.strv x.architecture,
                received := false, failed := false } ha0
            simp only [List.concat_eq_append] at h2 ⊢
            simp [h2, ha0e]
      · have ht : t = [] := by
          have hlen := inv.archLe
          rw [harchs] at hlen
          simp only [List.length_cons] at hlen
          exact List.length_eq_zero.mp (by omega)
        subst ht
        have harchset : st.archSet = [some b] := by
          rw [inv.archEq, harchs]
          rfl
        by_cases hcb : x.architecture = b
        · subst hcb
          left
          refine ⟨{ st with
              artifacts := st.artifacts.concat
                { kind := ArtKind.TOOL, name := x.name,
                  version := some x.version,
                  architecture := Arch.strv x.architecture },
              toolSet := st.toolSet.concat (x.name, st.artifacts.length) },
            rs.concat st.artifacts.length, ?_, ?_⟩
          · simp [handleArtifact, Build.aset, Build.setAset, hfind, hget, hno,
              archHashable, harchset]
          · rw [specStep, if_neg hnotseen,
              if_neg (by rw [harchs]; simp [hno])]
            refine { toolNames := ?seenNew, pkgNames := ?seenOld,
                     archEq := ?ae, archLe := ?al,
                     toolArch := ?archNew, pkgArch := ?archOld }
            case seenNew =>
              show _ = (sp.addSeen ArtKind.TOOL x.name).seenT
              simp [SpecSt.addSeen, ← inv.toolNames, List.concat_eq_append]
            case seenOld =>
              show _ = (sp.addSeen ArtKind.TOOL x.name).seenP
              simpa [SpecSt.addSeen] using inv.pkgNames
            case ae =>
              show st.archSet = _
              simpa [SpecSt.addSeen, addSeen_archs] using inv.archEq
            case al =>
              simpa [SpecSt.addSeen, addSeen_archs] using inv.archLe
            case archNew =>
              intro nv hnv
              rcases mem_concat_elim hnv with hold | hnew
              · obtain ⟨s, hsa, hc⟩ := inv.toolArch _ hold
                obtain ⟨a0, ha0, ha0e⟩ : ∃ a0,
                    st.artifacts[nv.2]? = some a0 ∧
                    a0.architecture = Arch.strv s := by
                  cases hx : st.artifacts[nv.2]? with
                  | none => rw [hx] at hsa; simp at hsa
                  | some a0 => rw [hx] at hsa; simp at hsa; exact ⟨a0, rfl, hsa⟩
                refine ⟨s, ?_, hc⟩
                have h2 := getElem?_concat_of_some
                  { kind := ArtKind.TOOL, name := x.name,
                    version := some x.version,
                    architecture := Arch.strv x.architecture,
                    received := false, failed := false } ha0
                simp only [List.concat_eq_append] at h2 ⊢
                simp [h2, ha0e]
              · subst hnew
                exact ⟨x.architecture, by simp [hget],
                  Or.inr (by rw [harchset]; simp)⟩
            case archOld =>
              intro nv hnv
              obtain ⟨s, hsa, hc⟩ := inv.pkgArch _ hnv
              obtain ⟨a0, ha0, ha0e⟩ : ∃ a0, st.artifacts[nv.2]? = some a0 ∧
                  a0.architecture = Arch.strv s := by
                cases hx : st.artifacts[nv.2]? with
                | none => rw [hx] at hsa; simp at hsa
                | some a0 => rw [hx] at hsa; simp at hsa; exact ⟨a0, rfl, hsa⟩
              refine ⟨s, ?_, hc⟩
              have h2 := getElem?_concat_of_some
                { kind := ArtKind.TOOL, name := x.name,
                  version := some x.version,
                  architecture := Arch.strv x.architecture,
                  received := false, failed := false } ha0
              simp only [List.concat_eq_append] at h2 ⊢
              simp [h2, ha0e]
        · right
          constructor
          · have hnotmem : some x.architecture ∉ st.archSet := by
              rw [harchset]
              simp [hcb]
            simp [handleArtifact, Build.aset, Build.setAset, hfind, hget, hno,
              archHashable, harchset, hcb]
          · rw [specStep, if_neg hnotseen,
              if_pos ⟨hno, by rw [harchs]; simp [hcb]⟩]
            simp [SpecSt.addSeen, addSeen_archs, harchs]

theorem handleArtifact_sim_pkg (st : Build) (sp : SpecSt) (rs : List Nat)
    (x : ArtDesc) (inv : ArchInv st sp) :
    SimOk (handleArtifact st ArtKind.PACKAGE rs x) (specStep sp ArtKind.PACKAGE x) := by
  cases hfind : alistGet st.pkgSet x.name with
  | some i =>
    have hmem : (x.name, i) ∈ st.pkgSet := alistGet_mem hfind
    have hseen : x.name ∈ sp.seen ArtKind.PACKAGE := by
      show x.name ∈ sp.seenP
      rw [← inv.pkgNames]
      exact List.mem_map_of_mem Prod.fst hmem
    rw [specStep_seen sp ArtKind.PACKAGE x hseen]
    obtain ⟨s, hs, hcase⟩ := inv.pkgArch _ hmem
    have hs2 : Option.map Artifact.architecture st.artifacts[i]?
        = some (Arch.strv s) := hs
    by_cases hno : s = "noarch"
    · left
      refine ⟨st, rs.concat i, ?_, inv⟩
      subst hno
      simp [handleArtifact, Build.aset, hfind, hs2]
    · have hmemarch : some s ∈ st.archSet := hcase.resolve_left hno
      left
      refine ⟨st, rs.concat i, ?_, inv⟩
      simp [handleArtifact, Build.aset, hfind, hs2, hno, archHashable, hmemarch]
  | none =>
    have hnotseen : x.name ∉ sp.seen ArtKind.PACKAGE := by
      show x.name ∉ sp.seenP
      rw [← inv.pkgNames]
      exact (alistGet_none_iff _ _).mp hfind
    have hget : ((st.artifacts.concat
        { kind := ArtKind.PACKAGE, name := x.name, version := some x.version,
          architecture := Arch.strv x.architecture })[st.artifacts.length]?)
        = some { kind := ArtKind.PACKAGE, name := x.name,
                 version := some x.version,
                 architecture := Arch.strv x.architecture } :=
      getElem?_concat_self _ _
    by_cases hno : x.architecture = "noarch"
    · left
      refine ⟨{ st with
          artifacts := st.artifacts.concat
            { kind := ArtKind.PACKAGE, name := x.name, version := some x.version,
              architecture := Arch.strv x.architecture },
          pkgSet := st.pkgSet.concat (x.name, st.artifacts.length) },
        rs.concat st.artifacts.length, ?_, ?_⟩
      · simp [handleArtifact, Build.aset, Build.setAset, hfind, hget, hno]
      · rw [specStep, if_neg hnotseen, if_neg (by simp [hno])]
        refine { toolNames := ?seenOld, pkgNames := ?seenNew,
                 archEq := ?ae, archLe := ?al,
                 toolArch := ?archOld, pkgArch := ?archNew }
        case seenNew =>
          show _ = sp.seenP.concat x.name
          simp [← inv.pkgNames, List.concat_eq_append]
        case seenOld =>
          show _ = sp.seenT
          exact inv.toolNames
        case ae =>
          exact inv.archEq
        case al =>
          exact inv.archLe
        case archNew =>
          intro nv hnv
          rcases mem_concat_elim hnv with hold | hnew
          · obtain ⟨s, hsa, hc⟩ := inv.pkgArch _ hold
            obtain ⟨a0, ha0, ha0e⟩ : ∃ a0, st.artifacts[nv.2]? = some a0 ∧
                a0.architecture = Arch.strv s := by
              cases hx : st.artifacts[nv.2]? with
              | none => rw [hx] at hsa; simp at hsa
              | some a0 => rw [hx] at hsa; simp at hsa; exact ⟨a0, rfl, hsa⟩
            refine ⟨s, ?_, hc⟩
            have h2 := getElem?_concat_of_some
              { kind := ArtKind.PACKAGE, name := x.name,
                version := some x.version,
                architecture := Arch.strv x.architecture,
                received := false, failed := false } ha0
            simp only [List.concat_eq_append] at h2 ⊢
            simp [h2, ha0e]
          · subst hnew
            exact ⟨x.architecture, by simp [hget], Or.inl hno⟩
        case archOld =>
          intro nv hnv
          obtain ⟨s, hsa, hc⟩ := inv.toolArch _ hnv
          obtain ⟨a0, ha0, ha0e⟩ : ∃ a0, st.artifacts[nv.2]? = some a0 ∧
              a0.architecture = Arch.strv s := by
            cases hx : st.artifacts[nv.2]? with
            | none => rw [hx] at hsa; simp at hsa
            | some a0 => rw [hx] at hsa; simp at hsa; exact ⟨a0, rfl, hsa⟩
          refine ⟨s, ?_, hc⟩
          have h2 := getElem?_concat_of_some
            { kind := ArtKind.PACKAGE, name := x.name,
              version := some x.version,
              architecture := Arch.strv x.architecture,
              received := false, failed := false } ha0
          simp only [List.concat_eq_append] at h2 ⊢
          simp [h2, ha0e]
    · have harchfix : ∀ s : String, (s = "noarch" ∨ some s ∈ st.archSet) →
          ∀ A : List (Option String), st.archSet = [] →
          (s = "noarch" ∨ some s ∈ A) := by
        intro s hsc A hA
        refine hsc.elim Or.inl (fun hmem => ?_)
        rw [hA] at hmem
        simp at hmem
      rcases harchs : sp.archs with _ | ⟨b, t⟩
      · have harchset : st.archSet = [] := by
          rw [inv.archEq, harchs]
          rfl
        left
        refine ⟨{ st with
            artifacts := st.artifacts.concat
              { kind := ArtKind.PACKAGE, name := x.name,
                version := some x.version,
                architecture := Arch.strv x.architecture },
            pkgSet := st.pkgSet.concat (x.name, st.artifacts.length),
            archSet := [some x.architecture] },
          rs.concat st.artifacts.length, ?_, ?_⟩
        · simp [handleArtifact, Build.aset, Build.setAset, hfind, hget, hno,
            archHashable, harchset]
        · rw [specStep, if_neg hnotseen, if_pos ⟨hno, by rw [harchs]; simp⟩]
          refine { toolNames := ?seenOld, pkgNames := ?seenNew,
                   archEq := ?ae, archLe := ?al,
                   toolArch := ?archOld, pkgArch := ?archNew }
          case seenNew =>
            show _ = (sp.addSeen ArtKind.PACKAGE x.name).seenP
            simp [SpecSt.addSeen, ← inv.pkgNames, List.concat_eq_append]
          case seenOld =>
            show _ = (sp.addSeen ArtKind.PACKAGE x.name).seenT
            simpa [SpecSt.addSeen] using inv.toolNames
          case ae =>
            show [some x.architecture] = _
            simp [SpecSt.addSeen, addSeen_archs, harchs]
          case al =>
            simp [SpecSt.addSeen, addSeen_archs, harchs]
          case archNew =>
            intro nv hnv
            rcases mem_concat_elim hnv with hold | hnew
            · obtain ⟨s, hsa, hc⟩ := inv.pkgArch _ hold
              obtain ⟨a0, ha0, ha0e⟩ : ∃ a0, st.artifacts[nv.2]? = some a0 ∧
                  a0.architecture = Arch.strv s := by
                cases hx : st.artifacts[nv.2]? with
                | none => rw [hx] at hsa; simp at hsa
                | some a0 => rw [hx] at hsa; simp at hsa; exact ⟨a0, rfl, hsa⟩
              refine ⟨s, ?_, harchfix s hc _ harchset⟩
              have h2 := getElem?_concat_of_some
                { kind := ArtKind.PACKAGE, name := x.name,
                  version := some x.version,
                  architecture := Arch.strv x.architecture,
                  received := false, failed := false } ha0
              simp only [List.concat_eq_append] at h2 ⊢
              simp [h2, ha0e]
            · subst hnew
              exact ⟨x.architecture, by simp [hget], Or.inr (by simp)⟩
          case archOld =>
            intro nv hnv
            obtain ⟨s, hsa, hc⟩ := inv.toolArch _ hnv
            obtain ⟨a0, ha0, ha0e⟩ : ∃ a0, st.artifacts[nv.2]? = some a0 ∧
                a0.architecture = Arch.strv s := by
              cases hx : st.artifacts[nv.2]? with
              | none => rw [hx] at hsa; simp at hsa
              | some a0 => rw [hx] at hsa; simp at hsa; exact ⟨a0, rfl, hsa⟩
            refine ⟨s, ?_, harchfix s hc _ harchset⟩
            have h2 := getElem?_concat_of_some
              { kind := ArtKind.PACKAGE, name := x.name,
                version := some x.version,
                architecture := Arch.strv x.architecture,
                received := false, failed := false } ha0
            simp only [List.concat_eq_append] at h2 ⊢
            simp [h2, ha0e]
      · have ht : t = [] := by
          have hlen := inv.archLe
          rw [harchs] at hlen
          simp only [List.length_cons] at hlen
          exact List.length_eq_zero.mp (by omega)
        subst ht
        have harchset : st.archSet = [some b] := by
          rw [inv.archEq, harchs]
          rfl
        by_cases hcb : x.architecture = b
        · subst hcb
          left
          refine ⟨{ st with
              artifacts := st.artifacts.concat
                { kind := ArtKind.PACKAGE, name := x.name,
                  version := some x.version,
                  architecture := Arch.strv x.architecture },
              pkgSet := st.pkgSet.concat (x.name, st.artifacts.length) },
            rs.concat st.artifacts.length, ?_, ?_⟩
          · simp [handleArtifact, Build.aset, Build.setAset, hfind, hget, hno,
              archHashable, harchset]
          · rw [specStep, if_neg hnotseen,
              if_neg (by rw [harchs]; simp [hno])]
            refine { toolNames := ?seenOld, pkgNames := ?seenNew,
                     archEq := ?ae, archLe := ?al,
                     toolArch := ?archOld, pkgArch := ?archNew }
            case seenNew =>
              show _ = (sp.addSeen ArtKind.PACKAGE x.name).seenP
              simp [SpecSt.addSeen, ← inv.pkgNames, List.concat_eq_append]
            case seenOld =>
              show _ = (sp.addSeen ArtKind.PACKAGE x.name).seenT
              simpa [SpecSt.addSeen] using inv.toolNames
            case ae =>
              show st.archSet = _
              simpa [SpecSt.addSeen, addSeen_archs] using inv.archEq
            case al =>
              simpa [SpecSt.addSeen, addSeen_archs] using inv.archLe
            case archNew =>
              intro nv hnv
              rcases mem_concat_elim hnv with hold | hnew
              · obtain ⟨s, hsa, hc⟩ := inv.pkgArch _ hold
                obtain ⟨a0, ha0, ha0e⟩ : ∃ a0,
                    st.artifacts[nv.2]? = some a0 ∧
                    a0.architecture = Arch.strv s := by
                  cases hx : st.artifacts[nv.2]? with
                  | none => rw [hx] at hsa; simp at hsa
                  | some a0 => rw [hx] at hsa; simp at hsa; exact ⟨a0, rfl, hsa⟩
                refine ⟨s, ?_, hc⟩
                have h2 := getElem?_concat_of_some
                  { kind := ArtKind.PACKAGE, name := x.name,
                    version := some x.version,
                    architecture := Arch.strv x.architecture,
                    received := false, failed := false } ha0
                simp only [List.concat_eq_append] at h2 ⊢
                simp [h2, ha0e]
              · subst hnew
                exact ⟨x.architecture, by simp [hget],
                  Or.inr (by rw [harchset]; simp)⟩
            case archOld =>
              intro nv hnv
              obtain ⟨s, hsa, hc⟩ := inv.toolArch _ hnv
              obtain ⟨a0, ha0, ha0e⟩ : ∃ a0, st.artifacts[nv.2]? = some a0 ∧
                  a0.architecture = Arch.strv s := by
                cases hx : st.artifacts[nv.2]? with
                | none => rw [hx] at hsa; simp at hsa
                | some a0 => rw [hx] at hsa; simp at hsa; exact ⟨a0, rfl, hsa⟩
              refine ⟨s, ?_, hc⟩
              have h2 := getElem?_concat_of_some
                { kind := ArtKind.PACKAGE, name := x.name,
                  version := some x.version,
                  architecture := Arch.strv x.architecture,
                  received := false, failed := false } ha0
              simp only [List.concat_eq_append] at h2 ⊢
              simp [h2, ha0e]
        · right
          constructor
          · have hnotmem : some x.architecture ∉ st.archSet := by
              rw [harchset]
              simp [hcb]
            simp [handleArtifact, Build.aset, Build.setAset, hfind, hget, hno,
              archHashable, harchset, hcb]
          · rw [specStep, if_neg hnotseen,
              if_pos ⟨hno, by rw [harchs]; simp [hcb]⟩]
            simp [SpecSt.addSeen, addSeen_archs, harchs]

theorem handleArtifact_sim (st : Build) (sp : SpecSt) (kind : ArtKind)
    (hk : kind ≠ ArtKind.FILE) (rs : List Nat) (x : ArtDesc)
    (inv : ArchInv st sp) :
    SimOk (handleArtifact st kind rs x) (specStep sp kind x) := by
  cases kind with
  | FILE => exact absurd rfl hk
  | TOOL => exact handleArtifact_sim_tool st sp rs x inv
  | PACKAGE => exact handleArtifact_sim_pkg st sp rs x inv

theorem handleList_sim (kind : ArtKind) (hk : kind ≠ ArtKind.FILE)
    (xs : List ArtDesc) :
    ∀ (st : Build) (sp : SpecSt) (rs : List Nat), ArchInv st sp →
      SimOk (handleList st kind rs xs) (specList sp kind xs) := by
  induction xs with
  | nil =>
    intro st sp rs inv
    exact Or.inl ⟨st, rs, rfl, inv⟩
  | cons x t ih =>
    intro st sp rs inv
    have hcons : specList sp kind (x :: t) = specList (specStep sp kind x) kind t :=
      rfl
    rcases handleArtifact_sim st sp kind hk rs x inv with
      ⟨st1, rs1, heq, inv1⟩ | ⟨herr, hlen⟩
    · have hstep : handleList st kind rs (x :: t) = handleList st1 kind rs1 t := by
        simp only [handleList, heq]
        rfl
      rw [hstep, hcons]
      exact ih st1 (specStep sp kind x) rs1 inv1
    · right
      refine ⟨by simp only [handleList, herr]; rfl, ?_⟩
      rw [hcons]
      calc (2 : Nat) ≤ (specStep sp kind x).archs.length := hlen
        _ ≤ _ := specList_archs_le _ _ _

theorem archInv_transport (st st' : Build) (sp : SpecSt) (inv : ArchInv st sp)
    (hT : st'.toolSet = st.toolSet) (hP : st'.pkgSet = st.pkgSet)
    (hA : st'.archSet = st.archSet)
    (hArt : ∀ (i : Nat) (a : Artifact), st.artifacts[i]? = some a →
      (st'.artifacts[i]?).map Artifact.architecture = some a.architecture) :
    ArchInv st' sp := by
  refine { toolNames := by rw [hT]; exact inv.toolNames,
           pkgNames := by rw [hP]; exact inv.pkgNames,
           archEq := by rw [hA]; exact inv.archEq,
           archLe := inv.archLe, toolArch := ?_, pkgArch := ?_ }
  · intro nv hnv
    rw [hT] at hnv
    obtain ⟨s, hsa, hc⟩ := inv.toolArch _ hnv
    obtain ⟨a0, ha0, ha0e⟩ : ∃ a0, st.artifacts[nv.2]? = some a0 ∧
        a0.architecture = Arch.strv s := by
      cases hx : st.artifacts[nv.2]? with
      | none => rw [hx] at hsa; simp at hsa
      | some a0 => rw [hx] at hsa; simp at hsa; exact ⟨a0, rfl, hsa⟩
    refine ⟨s, ?_, by rw [hA]; exact hc⟩
    rw [hArt _ _ ha0, ha0e]
  · intro nv hnv
    rw [hP] at hnv
    obtain ⟨s, hsa, hc⟩ := inv.pkgArch _ hnv
    obtain ⟨a0, ha0, ha0e⟩ : ∃ a0, st.artifacts[nv.2]? = some a0 ∧
        a0.architecture = Arch.strv s := by
      cases hx : st.artifacts[nv.2]? with
      | none => rw [hx] at hsa; simp at hsa
      | some a0 => rw [hx] at hsa; simp at hsa; exact ⟨a0, rfl, hsa⟩
    refine ⟨s, ?_, by rw [hA]; exact hc⟩
    rw [hArt _ _ ha0, ha0e]

theorem ingestFiles_preserves (files : List String) :
    ∀ (st : Build) (prods : List Nat),
      (ingestFiles st prods files).1.toolSet = st.toolSet ∧
      (ingestFiles st prods files).1.pkgSet = st.pkgSet ∧
      (ingestFiles st prods files).1.archSet = st.archSet ∧
      ∀ (i : Nat) (a : Artifact), st.artifacts[i]? = some a →
        (ingestFiles st prods files).1.artifacts[i]? = some a := by
  induction files with
  | nil => intro st prods; exact ⟨rfl, rfl, rfl, fun i a h => h⟩
  | cons f t ih =>
    intro st prods
    have hstep : ingestFiles st prods (f :: t) =
        ingestFiles
          { st with artifacts := st.artifacts.concat
                        { kind := ArtKind.FILE, name := f, version := none,
                          architecture := Arch.nonev },
                    fileSet := alistSet st.fileSet f st.artifacts.length }
          (prods.concat st.artifacts.length) t := rfl
    rw [hstep]
    obtain ⟨h1, h2, h3, h4⟩ := ih _ (prods.concat st.artifacts.length)
    refine ⟨h1, h2, h3, ?_⟩
    intro i a h
    exact h4 i a (getElem?_concat_of_some _ h)

theorem markUpToDate_arch (prods : List Nat) :
    ∀ (arts : List Artifact) (i : Nat),
      ((markUpToDate arts prods)[i]?).map Artifact.architecture =
        (arts[i]?).map Artifact.architecture := by
  induction prods with
  | nil => intro arts i; rfl
  | cons p t ih =>
    intro arts i
    have hstep : markUpToDate arts (p :: t) =
        markUpToDate (match arts[p]? with
          | none => arts
          | some a => arts.set p { a with received := true, failed := false }) t :=
      rfl
    rw [hstep]
    cases hp : arts[p]? with
    | none => rw [ih]
    | some a =>
      rw [ih]
      by_cases hip : i = p
      · subst hip
        rw [getElem?_set_same _ _ _ _ hp, hp]
        rfl
      · rw [List.getElem?_set_ne (by omega)]

theorem except_bind_ok {α β : Type} (a : α) (f : α → Except String β) :
    (Except.ok a >>= f) = f a := rfl

theorem except_bind_error {α β : Type} (e : String) (f : α → Except String β) :
    ((Except.error e : Except String α) >>= f) = Except.error e := rfl

theorem ingestJobFinish_inv (st : Build) (sp : SpecSt) (inv : ArchInv st sp)
    (name : String) (info : GJobInfo) (deps prods0 : List Nat) :
    ArchInv (ingestJobFinish st name info deps prods0) sp := by
  obtain ⟨h1, h2, h3, h4⟩ := ingestFiles_preserves info.products.files st prods0
  refine archInv_transport st _ sp inv ?_ ?_ ?_ ?_
  · show (if info.up2date then _ else _ : Build).toolSet = st.toolSet
    by_cases hu : info.up2date <;> simp [hu, h1]
  · show (if info.up2date then _ else _ : Build).pkgSet = st.pkgSet
    by_cases hu : info.up2date <;> simp [hu, h2]
  · show (if info.up2date then _ else _ : Build).archSet = st.archSet
    by_cases hu : info.up2date <;> simp [hu, h3]
  · intro i a ha
    show ((if info.up2date then _ else _ : Build).artifacts[i]?).map
      Artifact.architecture = some a.architecture
    by_cases hu : info.up2date
    · simp only [hu, if_true]
      rw [markUpToDate_arch, h4 i a ha]
      rfl
    · simp only [hu]
      rw [if_neg (by simp), h4 i a ha]
      rfl

theorem ingestJob_sim (name : String) (info : GJobInfo) (st : Build)
    (sp : SpecSt) (inv : ArchInv st sp) :
    (∃ st', ingestJob st name info = .ok st' ∧ ArchInv st' (specJob sp info)) ∨
    (ingestJob st name info = .error "multiarch builds unsupported" ∧
      2 ≤ (specJob sp info).archs.length) := by
  have hjob : specJob sp info =
      specList (specList (specList (specList sp ArtKind.TOOL info.needed.tools)
        ArtKind.PACKAGE info.needed.pkgs) ArtKind.TOOL info.products.tools)
        ArtKind.PACKAGE info.products.pkgs := rfl
  rcases handleList_sim ArtKind.TOOL (by simp) info.needed.tools st sp [] inv
    with ⟨st1, rs1, he1, inv1⟩ | ⟨he1, hl1⟩
  · rcases handleList_sim ArtKind.PACKAGE (by simp) info.needed.pkgs st1 _ rs1 inv1
      with ⟨st2, rs2, he2, inv2⟩ | ⟨he2, hl2⟩
    · rcases handleList_sim ArtKind.TOOL (by simp) info.products.tools st2 _ [] inv2
        with ⟨st3, rs3, he3, inv3⟩ | ⟨he3, hl3⟩
      · rcases handleList_sim ArtKind.PACKAGE (by simp) info.products.pkgs st3 _ rs3 inv3
          with ⟨st4, rs4, he4, inv4⟩ | ⟨he4, hl4⟩
        · left
          refine ⟨ingestJobFinish st4 name info rs2 rs4, ?_, ?_⟩
          · unfold ingestJob
            rw [he1]
            simp only [except_bind_ok]
            rw [he2]
            simp only [except_bind_ok]
            rw [he3]
            simp only [except_bind_ok]
            rw [he4]
            rfl
          · rw [hjob]
            exact ingestJobFinish_inv st4 _ inv4 name info rs2 rs4
        · right
          refine ⟨by
            unfold ingestJob
            rw [he1]
            simp only [except_bind_ok]
            rw [he2]
            simp only [except_bind_ok]
            rw [he3]
            simp only [except_bind_ok]
            rw [he4]
            rfl, ?_⟩
          rw [hjob]
          exact hl4
      · right
        refine ⟨by
          unfold ingestJob
          rw [he1]
          simp only [except_bind_ok]
          rw [he2]
          simp only [except_bind_ok]
          rw [he3]
          rfl, ?_⟩
        rw [hjob]
        calc (2 : Nat)
            ≤ (specList (specList (specList sp ArtKind.TOOL info.needed.tools)
                ArtKind.PACKAGE info.needed.pkgs) ArtKind.TOOL
                info.products.tools).archs.length := hl3
          _ ≤ _ := specList_archs_le _ _ _
    · right
      refine ⟨by
        unfold ingestJob
        rw [he1]
        simp only [except_bind_ok]
        rw [he2]
        rfl, ?_⟩
      rw [hjob]
      calc (2 : Nat)
          ≤ (specList (specList sp ArtKind.TOOL info.needed.tools)
              ArtKind.PACKAGE info.needed.pkgs).archs.length := hl2
        _ ≤ (specList (specList (specList sp ArtKind.TOOL info.needed.tools)
              ArtKind.PACKAGE info.needed.pkgs) ArtKind.TOOL
              info.products.tools).archs.length := specList_archs_le _ _ _
        _ ≤ _ := specList_archs_le _ _ _
  · right
    refine ⟨by
      unfold ingestJob
      rw [he1]
      rfl, ?_⟩
    rw [hjob]
    calc (2 : Nat)
        ≤ (specList sp ArtKind.TOOL info.needed.tools).archs.length := hl1
      _ ≤ (specList (specList sp ArtKind.TOOL info.needed.tools)
            ArtKind.PACKAGE info.needed.pkgs).archs.length :=
          specList_archs_le _ _ _
      _ ≤ (specList (specList (specList sp ArtKind.TOOL info.needed.tools)
            ArtKind.PACKAGE info.needed.pkgs) ArtKind.TOOL
            info.products.tools).archs.length := specList_archs_le _ _ _
      _ ≤ _ := specList_archs_le _ _ _

theorem specGraphFold_archs_le (graph : List (String × GJobInfo)) :
    ∀ sp : SpecSt,
      sp.archs.length ≤
        (graph.foldl (fun a nj => specJob a nj.2) sp).archs.length := by
  induction graph with
  | nil => intro sp; exact le_refl _
  | cons nj t ih =>
    intro sp
    calc sp.archs.length ≤ (specJob sp nj.2).archs.length :=
        specJob_archs_le nj.2 sp
      _ ≤ _ := ih _

theorem setGraphFold_sim (graph : List (String × GJobInfo)) :
    ∀ (st : Build) (sp : SpecSt), ArchInv st sp →
      (∃ st', graph.foldlM (fun st nj => ingestJob st nj.1 nj.2) st = .ok st' ∧
        ArchInv st' (graph.foldl (fun a nj => specJob a nj.2) sp)) ∨
      (graph.foldlM (fun st nj => ingestJob st nj.1 nj.2) st =
          .error "multiarch builds unsupported" ∧
        2 ≤ (graph.foldl (fun a nj => specJob a nj.2) sp).archs.length) := by
  induction graph with
  | nil =>
    intro st sp inv
    exact Or.inl ⟨st, rfl, inv⟩
  | cons nj t ih =>
    intro st sp inv
    have hfold : (nj :: t).foldlM (fun st nj => ingestJob st nj.1 nj.2) st =
        (ingestJob st nj.1 nj.2) >>=
          (fun st1 => t.foldlM (fun st nj => ingestJob st nj.1 nj.2) st1) := by
      simp [List.foldlM_cons]
    have hfoldsp : (nj :: t).foldl (fun a nj => specJob a nj.2) sp =
        t.foldl (fun a nj => specJob a nj.2) (specJob sp nj.2) := rfl
    rcases ingestJob_sim nj.1 nj.2 st sp inv with ⟨st1, he, inv1⟩ | ⟨he, hl⟩
    · rw [hfold, he, except_bind_ok, hfoldsp]
      exact ih st1 _ inv1
    · right
      rw [hfold, he, except_bind_error, hfoldsp]
      exact ⟨rfl, le_trans hl (specGraphFold_archs_le t _)⟩

theorem archInv_initial (revision commitsObject : String) :
    ArchInv { revision := some revision, commitsObject := commitsObject }
      ({} : SpecSt) := by
  refine { toolNames := rfl, pkgNames := rfl, archEq := rfl,
           archLe := by simp, toolArch := ?_, pkgArch := ?_ } <;>
    intro nv hnv <;> simp at hnv

/-- C6.  Build.set_graph raises RuntimeError "multiarch builds
unsupported" exactly when the graph's tool/package artifacts (first
descriptor per name and kind) carry at least two distinct non-noarch
architectures, and on success at most one such architecture appears. -/
theorem xbbs_C6_multiarch_iff (revision : String)
    (graph : List (String × GJobInfo)) (commitsObject : String) :
    (setGraph revision graph commitsObject =
        .error "multiarch builds unsupported" ↔
      2 ≤ (graphConcreteArchs graph).length) ∧
    (∀ st, setGraph revision graph commitsObject = .ok st →
      (graphConcreteArchs graph).length ≤ 1) := by
  have hsim := setGraphFold_sim graph
    { revision := some revision, commitsObject := commitsObject } {}
    (archInv_initial revision commitsObject)
  have hgca : graphConcreteArchs graph =
      (graph.foldl (fun a nj => specJob a nj.2) ({} : SpecSt)).archs := rfl
  constructor
  · constructor
    · intro herr
      have hjobs : setGraphJobs revision graph commitsObject =
          .error "multiarch builds unsupported" := by
        unfold setGraph at herr
        cases hj : setGraphJobs revision graph commitsObject with
        | ok b => rw [hj] at herr; simp [Except.map] at herr
        | error e =>
          rw [hj] at herr
          simp [Except.map] at herr
          rw [herr]
      rcases hsim with ⟨st', he, _⟩ | ⟨_, hl⟩
      · rw [setGraphJobs] at hjobs
        rw [he] at hjobs
        simp at hjobs
      · rw [hgca]
        exact hl
    · intro hlen
      rcases hsim with ⟨st', he, inv'⟩ | ⟨he, _⟩
      · exfalso
        have := inv'.archLe
        rw [← hgca] at this
        omega
      · show Except.map setGraphNoarch (setGraphJobs revision graph commitsObject) = _
        rw [setGraphJobs, he]
        rfl
  · intro st hok
    rcases hsim with ⟨st', he, inv'⟩ | ⟨he, _⟩
    · rw [hgca]
      exact inv'.archLe
    · exfalso
      unfold setGraph at hok
      rw [setGraphJobs, he] at hok
      simp [Except.map] at hok

/-- C6 witness: a two-architecture graph is rejected with the multiarch
error. -/
theorem xbbs_C6_multiarch_iff_witness :
    setGraph "r" exGraphC6 "c" = .error "multiarch builds unsupported" :=
  (xbbs_C6_multiarch_iff "r" exGraphC6 "c").1.mpr (by decide)

theorem noarchStep_of_some (As : List (Option String)) (acc : Build)
    (j : Nat) (a : Artifact) (hj : acc.artifacts[j]? = some a) :
    noarchStep As acc j =
      if a.architecture = Arch.strv "noarch"
      then { acc with artifacts :=
               acc.artifacts.set j { a with architecture := Arch.listv As } }
      else acc := by
  unfold noarchStep
  rw [hj]

theorem noarchStep_of_none (As : List (Option String)) (acc : Build)
    (j : Nat) (hj : acc.artifacts[j]? = none) : noarchStep As acc j = acc := by
  unfold noarchStep
  rw [hj]

theorem noarchStep_keeps (As : List (Option String)) (acc : Build)
    (j p : Nat)
    (hp : (acc.artifacts[p]?).map Artifact.architecture =
      some (Arch.listv As)) :
    ((noarchStep As acc j).artifacts[p]?).map Artifact.architecture =
      some (Arch.listv As) := by
  cases hj : acc.artifacts[j]? with
  | none => rw [noarchStep_of_none As acc j hj]; exact hp
  | some a =>
    rw [noarchStep_of_some As acc j a hj]
    by_cases hna : a.architecture = Arch.strv "noarch"
    · rw [if_pos hna]
      by_cases hjp : j = p
      · subst hjp
        rw [hj] at hp
        simp at hp
        rw [hna] at hp
        simp at hp
      · show ((acc.artifacts.set j _)[p]?).map Artifact.architecture = _
        rw [List.getElem?_set_ne hjp]
        exact hp
    · rw [if_neg hna]
      exact hp

theorem noarchStep_disj (As : List (Option String)) (acc : Build)
    (j p : Nat)
    (hp : (acc.artifacts[p]?).map Artifact.architecture =
        some (Arch.strv "noarch") ∨
      (acc.artifacts[p]?).map Artifact.architecture = some (Arch.listv As)) :
    ((noarchStep As acc j).artifacts[p]?).map Artifact.architecture =
        some (Arch.strv "noarch") ∨
      ((noarchStep As acc j).artifacts[p]?).map Artifact.architecture =
        some (Arch.listv As) := by
  cases hj : acc.artifacts[j]? with
  | none => rw [noarchStep_of_none As acc j hj]; exact hp
  | some a =>
    rw [noarchStep_of_some As acc j a hj]
    by_cases hna : a.architecture = Arch.strv "noarch"
    · rw [if_pos hna]
      by_cases hjp : j = p
      · subst hjp
        right
        show ((acc.artifacts.set j _)[j]?).map Artifact.architecture = _
        rw [getElem?_set_same _ _ _ _ hj]
        rfl
      · have heq : ((acc.artifacts.set j
            { a with architecture := Arch.listv As })[p]?) =
            acc.artifacts[p]? := List.getElem?_set_ne hjp
        rcases hp with hp | hp
        · left
          show ((acc.artifacts.set j _)[p]?).map Artifact.architecture = _
          rw [heq]
          exact hp
        · right
          show ((acc.artifacts.set j _)[p]?).map Artifact.architecture = _
          rw [heq]
          exact hp
    · rw [if_neg hna]
      exact hp

theorem noarchFold_keeps (As : List (Option String)) (idxs : List Nat) :
    ∀ (acc : Build) (p : Nat),
      (acc.artifacts[p]?).map Artifact.architecture = some (Arch.listv As) →
      ((idxs.foldl (noarchStep As) acc).artifacts[p]?).map
        Artifact.architecture = some (Arch.listv As) := by
  induction idxs with
  | nil => intro acc p hp; exact hp
  | cons j t ih =>
    intro acc p hp
    exact ih _ p (noarchStep_keeps As acc j p hp)

theorem noarchFold_rewrites (As : List (Option String)) (idxs : List Nat) :
    ∀ (acc : Build) (p : Nat), p ∈ idxs →
      ((acc.artifacts[p]?).map Artifact.architecture =
          some (Arch.strv "noarch") ∨
        (acc.artifacts[p]?).map Artifact.architecture =
          some (Arch.listv As)) →
      ((idxs.foldl (noarchStep As) acc).artifacts[p]?).map
        Artifact.architecture = some (Arch.listv As) := by
  induction idxs with
  | nil => intro acc p hp; simp at hp
  | cons j t ih =>
    intro acc p hmem hp
    by_cases hjp : p = j
    · subst hjp
      have hstep : ((noarchStep As acc p).artifacts[p]?).map
          Artifact.architecture = some (Arch.listv As) := by
        rcases hp with hp | hp
        · obtain ⟨a, ha, hae⟩ : ∃ a, acc.artifacts[p]? = some a ∧
              a.architecture = Arch.strv "noarch" := by
            cases hx : acc.artifacts[p]? with
            | none => rw [hx] at hp; simp at hp
            | some a => rw [hx] at hp; simp at hp; exact ⟨a, rfl, hp⟩
          rw [noarchStep_of_some As acc p a ha, if_pos hae]
          show ((acc.artifacts.set p _)[p]?).map Artifact.architecture = _
          rw [getElem?_set_same _ _ _ _ ha]
          rfl
        · exact noarchStep_keeps As acc p p hp
      exact noarchFold_keeps As t _ p hstep
    · rcases List.mem_cons.mp hmem with h | h
      · exact absurd h hjp
      · exact ih _ p h (noarchStep_disj As acc j p hp)

/-- C7.  After a successful set_graph ingestion of a graph that declares
at least one non-noarch tool/package architecture, the architecture list
is the singleton of that concrete architecture, and the final rewrite
loop replaces the architecture of every tool/package artifact stored as
the string noarch with list(arch_set), the one-element list holding that
architecture. -/
theorem xbbs_C7_noarch_rewrite (revision : String)
    (graph : List (String × GJobInfo)) (commitsObject : String) (st : Build)
    (hok : setGraphJobs revision graph commitsObject = .ok st)
    (hne : graphConcreteArchs graph ≠ [])
    (idx : Nat)
    (hidx : idx ∈ (st.toolSet.map Prod.snd) ++ (st.pkgSet.map Prod.snd))
    (hnoarch : (st.artifacts[idx]?).map Artifact.architecture =
      some (Arch.strv "noarch")) :
    ∃ a, graphConcreteArchs graph = [a] ∧ st.archSet = [some a] ∧
      ((setGraphNoarch st).artifacts[idx]?).map Artifact.architecture =
        some (Arch.listv [some a]) := by
  have hsim := setGraphFold_sim graph
    { revision := some revision, commitsObject := commitsObject } {}
    (archInv_initial revision commitsObject)
  have hgca : graphConcreteArchs graph =
      (graph.foldl (fun a nj => specJob a nj.2) ({} : SpecSt)).archs := rfl
  rcases hsim with ⟨st', he, inv'⟩ | ⟨he, _⟩
  · have hst : st' = st := by
      rw [setGraphJobs] at hok
      rw [he] at hok
      simpa using hok
    rw [hst] at inv'
    have harchle := inv'.archLe
    rw [← hgca] at harchle
    obtain ⟨a, ha⟩ : ∃ a, graphConcreteArchs graph = [a] := by
      cases hx : graphConcreteArchs graph with
      | nil => exact absurd hx hne
      | cons a t =>
        rw [hx] at harchle
        simp only [List.length_cons] at harchle
        have ht : t = [] := List.length_eq_zero.mp (by omega)
        subst ht
        exact ⟨a, rfl⟩
    have hset : st.archSet = [some a] := by
      have := inv'.archEq
      rw [← hgca, ha] at this
      simpa using this
    refine ⟨a, ha, hset, ?_⟩
    have hres := noarchFold_rewrites st.archSet
      ((st.toolSet.map Prod.snd) ++ (st.pkgSet.map Prod.snd)) st idx hidx
      (Or.inl hnoarch)
    rw [hset] at hres
    unfold setGraphNoarch
    rw [hset]
    exact hres
  · rw [setGraphJobs] at hok
    rw [he] at hok
    simp at hok

/-- C7 witness at a one-job graph with an x86_64 tool and a noarch
tool. -/
theorem xbbs_C7_noarch_rewrite_witness :
    ∃ a, graphConcreteArchs exGraphC7 = [a] ∧ exStC7.archSet = [some a] ∧
      ((setGraphNoarch exStC7).artifacts[1]?).map Artifact.architecture =
        some (Arch.listv [some a]) :=
  xbbs_C7_noarch_rewrite "r" exGraphC7 "c" exStC7 (by rfl) (by decide) 1
    (by decide) (by rfl)

theorem artFailed_congr {g g' : Build} (h : g'.artifacts = g.artifacts)
    (p : Nat) : g'.artFailed p = g.artFailed p := by
  unfold Build.artFailed
  rw [h]

theorem artReceived_congr {g g' : Build} (h : g'.artifacts = g.artifacts)
    (p : Nat) : g'.artReceived p = g.artReceived p := by
  unfold Build.artReceived
  rw [h]

theorem unfailedCount_congr {g g' : Build} (h : g'.artifacts = g.artifacts) :
    unfailedCount g' = unfailedCount g := by
  unfold unfailedCount
  rw [h]

theorem setJobStatus_artifacts (g : Build) (j : Nat) (s : JobStatus) :
    (g.setJobStatus j s).artifacts = g.artifacts := by
  unfold Build.setJobStatus
  cases g.jobs[j]? with
  | none => rfl
  | some nj => rfl

theorem setJobStatus_jobs_len (g : Build) (j : Nat) (s : JobStatus) :
    (g.setJobStatus j s).jobs.length = g.jobs.length := by
  unfold Build.setJobStatus
  cases g.jobs[j]? with
  | none => rfl
  | some nj => simp

theorem job?_setJobStatus_other (g : Build) (j : Nat) (s : JobStatus)
    (k : Nat) (h : k ≠ j) : (g.setJobStatus j s).job? k = g.job? k := by
  unfold Build.setJobStatus Build.job?
  cases g.jobs[j]? with
  | none => rfl
  | some nj =>
    show ((g.jobs.set j _)[k]?).map Prod.snd = _
    rw [List.getElem?_set_ne (fun he => h he.symm)]

theorem job?_setJobStatus_self (g : Build) (j : Nat) (s : JobStatus)
    (nm : String) (jb : BJob) (hj : g.jobs[j]? = some (nm, jb)) :
    (g.setJobStatus j s).job? j = some { jb with status := s } := by
  unfold Build.setJobStatus Build.job?
  rw [hj]
  show ((g.jobs.set j _)[j]?).map Prod.snd = _
  rw [getElem?_set_same _ _ _ _ hj]
  rfl

theorem markArtifactFailed_jobs (g : Build) (p : Nat) :
    (g.markArtifactFailed p).jobs = g.jobs := by
  unfold Build.markArtifactFailed
  cases g.artifacts[p]? with
  | none => rfl
  | some a => rfl

theorem markArtifactFailed_artLen (g : Build) (p : Nat) :
    (g.markArtifactFailed p).artifacts.length = g.artifacts.length := by
  unfold Build.markArtifactFailed
  cases g.artifacts[p]? with
  | none => rfl
  | some a => simp

theorem artFailed_of_none {g : Build} {p : Nat}
    (h : g.artifacts[p]? = none) : g.artFailed p = true := by
  unfold Build.artFailed
  rw [h]
  rfl

theorem artFailed_mark_self (g : Build) (p : Nat) :
    (g.markArtifactFailed p).artFailed p = true := by
  unfold Build.markArtifactFailed
  cases hp : g.artifacts[p]? with
  | none => exact artFailed_of_none hp
  | some a =>
    unfold Build.artFailed
    rw [getElem?_set_same _ _ _ _ hp]
    rfl

theorem artReceived_mark_self (g : Build) (p : Nat)
    (h : (g.artifacts[p]?).isSome) :
    (g.markArtifactFailed p).artReceived p = true := by
  obtain ⟨a, ha⟩ := Option.isSome_iff_exists.mp h
  unfold Build.markArtifactFailed
  rw [ha]
  unfold Build.artReceived
  rw [getElem?_set_same _ _ _ _ ha]
  rfl

theorem mark_other_entry (g : Build) (p q : Nat) (h : q ≠ p) :
    (g.markArtifactFailed p).artifacts[q]? = g.artifacts[q]? := by
  unfold Build.markArtifactFailed
  cases g.artifacts[p]? with
  | none => rfl
  | some a =>
    show (g.artifacts.set p _)[q]? = _
    rw [List.getElem?_set_ne (fun he => h he.symm)]

theorem artFailed_mark_other (g : Build) (p q : Nat) (h : q ≠ p) :
    (g.markArtifactFailed p).artFailed q = g.artFailed q := by
  unfold Build.artFailed
  rw [mark_other_entry g p q h]

theorem artReceived_mark_other (g : Build) (p q : Nat) (h : q ≠ p) :
    (g.markArtifactFailed p).artReceived q = g.artReceived q := by
  unfold Build.artReceived
  rw [mark_other_entry g p q h]

theorem countP_set_lt {α : Type} (q : α → Bool) :
    ∀ (l : List α) (i : Nat) (a b : α), l[i]? = some a → q a = true →
      q b = false → (l.set i b).countP q < l.countP q := by
  intro l
  induction l with
  | nil => intro i a b h _ _; simp at h
  | cons x t ih =>
    intro i a b h hqa hqb
    cases i with
    | zero =>
      simp at h
      subst h
      simp [List.countP_cons, hqa, hqb]
    | succ n =>
      simp at h
      have := ih n a b h hqa hqb
      simp [List.countP_cons]
      omega

theorem countP_set_le {α : Type} (q : α → Bool) :
    ∀ (l : List α) (i : Nat) (b : α), q b = false →
      (l.set i b).countP q ≤ l.countP q := by
  intro l
  induction l with
  | nil => intro i b _; simp
  | cons x t ih =>
    intro i b hqb
    cases i with
    | zero => simp [List.countP_cons, hqb]
    | succ n =>
      have := ih n b hqb
      simp [List.countP_cons]
      omega

theorem artFailed_false_entry {g : Build} {p : Nat}
    (h : g.artFailed p = false) :
    ∃ a, g.artifacts[p]? = some a ∧ a.failed = false := by
  unfold Build.artFailed at h
  cases hp : g.artifacts[p]? with
  | none => rw [hp] at h; simp at h
  | some a => rw [hp] at h; simp at h; exact ⟨a, rfl, h⟩

theorem unfailedCount_mark_lt {g : Build} {p : Nat}
    (h : g.artFailed p = false) :
    unfailedCount (g.markArtifactFailed p) < unfailedCount g := by
  obtain ⟨a, ha, haf⟩ := artFailed_false_entry h
  unfold Build.markArtifactFailed
  rw [ha]
  show unfailedCount { g with artifacts := g.artifacts.set p _ } < _
  unfold unfailedCount
  refine countP_set_lt _ g.artifacts p a _ ha ?_ ?_
  · simp [haf]
  · simp

theorem unfailedCount_pos {g : Build} {p : Nat} (h : g.artFailed p = false) :
    0 < unfailedCount g := by
  obtain ⟨a, ha, haf⟩ := artFailed_false_entry h
  unfold unfailedCount
  rw [List.countP_pos]
  have hmem : a ∈ g.artifacts := by
    obtain ⟨hlt, he⟩ := List.getElem?_eq_some.mp ha
    exact he ▸ List.getElem_mem hlt
  exact ⟨a, hmem, by simp [haf]⟩

theorem mem_jobDeps_isSome {g : Build} {p k : Nat}
    (h : p ∈ g.jobDeps k) : (g.job? k).isSome := by
  unfold Build.jobDeps at h
  cases hk : g.job? k with
  | none => rw [hk] at h; simp at h
  | some jb => rfl

theorem job?_isSome_lt {g : Build} {k : Nat} (h : (g.job? k).isSome) :
    k < g.jobs.length := by
  unfold Build.job? at h
  cases hk : g.jobs[k]? with
  | none => rw [hk] at h; simp at h
  | some nj => exact getElem?_isSome_lt (by rw [hk]; rfl)

theorem failStatusNext_inFailSet (u : Bool) (s : JobStatus) :
    inFailSet (failStatusNext u s) := by
  unfold failStatusNext inFailSet
  by_cases h : s = JobStatus.RUNNING
  · rw [if_pos h]
    exact Or.inl rfl
  · rw [if_neg h]
    cases u <;> simp

theorem job?_congr {g g' : Build} (h : g'.jobs = g.jobs) (k : Nat) :
    g'.job? k = g.job? k := by
  unfold Build.job?
  rw [h]

theorem jobDeps_congr {g g' : Build} (h : g'.jobs = g.jobs) (k : Nat) :
    g'.jobDeps k = g.jobDeps k := by
  unfold Build.jobDeps
  rw [job?_congr h]

theorem jobProducts_congr {g g' : Build} (h : g'.jobs = g.jobs) (k : Nat) :
    g'.jobProducts k = g.jobProducts k := by
  unfold Build.jobProducts
  rw [job?_congr h]

theorem jobStatus_congr {g g' : Build} (h : g'.jobs = g.jobs) (k : Nat) :
    g'.jobStatus k = g.jobStatus k := by
  unfold Build.jobStatus
  rw [job?_congr h]

theorem setJobStatus_none {g : Build} {j : Nat} (s : JobStatus)
    (hj : g.jobs[j]? = none) : g.setJobStatus j s = g := by
  unfold Build.setJobStatus
  rw [hj]

theorem markArtifactFailed_none {g : Build} {p : Nat}
    (hp : g.artifacts[p]? = none) : g.markArtifactFailed p = g := by
  unfold Build.markArtifactFailed
  rw [hp]

theorem jobDeps_setJobStatus (g : Build) (j : Nat) (s : JobStatus) (k : Nat) :
    (g.setJobStatus j s).jobDeps k = g.jobDeps k := by
  by_cases hkj : k = j
  · subst hkj
    cases hj : g.jobs[k]? with
    | none => rw [setJobStatus_none s hj]
    | some nj =>
      obtain ⟨nm, jb⟩ := nj
      unfold Build.jobDeps
      rw [job?_setJobStatus_self g k s nm jb hj]
      unfold Build.job?
      rw [hj]
      rfl
  · unfold Build.jobDeps
    rw [job?_setJobStatus_other g j s k hkj]

theorem jobProducts_setJobStatus (g : Build) (j : Nat) (s : JobStatus)
    (k : Nat) : (g.setJobStatus j s).jobProducts k = g.jobProducts k := by
  by_cases hkj : k = j
  · subst hkj
    cases hj : g.jobs[k]? with
    | none => rw [setJobStatus_none s hj]
    | some nj =>
      obtain ⟨nm, jb⟩ := nj
      unfold Build.jobProducts
      rw [job?_setJobStatus_self g k s nm jb hj]
      unfold Build.job?
      rw [hj]
      rfl
  · unfold Build.jobProducts
    rw [job?_setJobStatus_other g j s k hkj]

theorem jobSome_setJobStatus (g : Build) (j : Nat) (s : JobStatus) (k : Nat) :
    ((g.setJobStatus j s).job? k).isSome = (g.job? k).isSome := by
  by_cases hkj : k = j
  · subst hkj
    cases hj : g.jobs[k]? with
    | none => rw [setJobStatus_none s hj]
    | some nj =>
      obtain ⟨nm, jb⟩ := nj
      rw [job?_setJobStatus_self g k s nm jb hj]
      unfold Build.job?
      rw [hj]
      rfl
  · rw [job?_setJobStatus_other g j s k hkj]

theorem jobStatus_setJobStatus_self (g : Build) (j : Nat) (s : JobStatus)
    (nm : String) (jb : BJob) (hj : g.jobs[j]? = some (nm, jb)) :
    (g.setJobStatus j s).jobStatus j = s := by
  unfold Build.jobStatus
  rw [job?_setJobStatus_self g j s nm jb hj]
  rfl

theorem jobStatus_setJobStatus_other (g : Build) (j : Nat) (s : JobStatus)
    (k : Nat) (h : k ≠ j) :
    (g.setJobStatus j s).jobStatus k = g.jobStatus k := by
  unfold Build.jobStatus
  rw [job?_setJobStatus_other g j s k h]

theorem evol_refl (g : Build) : Evol g g :=
  { artLen := rfl, jobsLen := rfl, depsEq := fun _ => rfl,
    productsEq := fun _ => rfl, jobSome := fun _ => rfl,
    failedMono := fun _ h => h, receivedMono := fun _ h => h,
    newReceived := fun _ h => Or.inl h, statusStep := fun _ => Or.inl rfl,
    countLe := le_refl _ }

theorem evol_trans {g g1 g2 : Build} (A : Evol g g1) (B : Evol g1 g2) :
    Evol g g2 := by
  refine { artLen := ?_, jobsLen := ?_, depsEq := ?_, productsEq := ?_,
           jobSome := ?_, failedMono := ?_, receivedMono := ?_,
           newReceived := ?_, statusStep := ?_, countLe := ?_ }
  · rw [B.artLen, A.artLen]
  · rw [B.jobsLen, A.jobsLen]
  · intro k
    rw [B.depsEq, A.depsEq]
  · intro k
    rw [B.productsEq, A.productsEq]
  · intro k
    rw [B.jobSome, A.jobSome]
  · intro p h
    exact B.failedMono p (A.failedMono p h)
  · intro p h
    exact B.receivedMono p (A.receivedMono p h)
  · intro p h2
    rcases B.newReceived p h2 with h1 | hr
    · rcases A.newReceived p h1 with h0 | hr0
      · exact Or.inl h0
      · exact Or.inr (B.receivedMono p hr0)
    · exact Or.inr hr
  · intro k
    rcases B.statusStep k with he | hf
    · rw [he]
      exact A.statusStep k
    · exact Or.inr hf
  · exact le_trans B.countLe A.countLe

theorem evol_setJobStatus_fail (g : Build) (j : Nat) (u : Bool)
    (s : JobStatus) : Evol g (g.setJobStatus j (failStatusNext u s)) := by
  have hart := setJobStatus_artifacts g j (failStatusNext u s)
  refine { artLen := by rw [hart], jobsLen := setJobStatus_jobs_len g j _,
           depsEq := jobDeps_setJobStatus g j _,
           productsEq := jobProducts_setJobStatus g j _,
           jobSome := jobSome_setJobStatus g j _,
           failedMono := ?_, receivedMono := ?_, newReceived := ?_,
           statusStep := ?_, countLe := le_of_eq (unfailedCount_congr hart) }
  · intro p h
    rw [artFailed_congr hart]
    exact h
  · intro p h
    rw [artReceived_congr hart]
    exact h
  · intro p h
    rw [artFailed_congr hart] at h
    exact Or.inl h
  · intro k
    by_cases hkj : k = j
    · subst hkj
      cases hj : g.jobs[k]? with
      | none => rw [setJobStatus_none _ hj]; exact Or.inl rfl
      | some nj =>
        obtain ⟨nm, jb⟩ := nj
        rw [jobStatus_setJobStatus_self g k _ nm jb hj]
        exact Or.inr (failStatusNext_inFailSet u s)
    · rw [jobStatus_setJobStatus_other g j _ k hkj]
      exact Or.inl rfl

theorem evol_mark (g : Build) (p : Nat) : Evol g (g.markArtifactFailed p) := by
  cases hp : g.artifacts[p]? with
  | none => rw [markArtifactFailed_none hp]; exact evol_refl g
  | some a =>
    have hjobs := markArtifactFailed_jobs g p
    refine { artLen := markArtifactFailed_artLen g p,
             jobsLen := by rw [hjobs],
             depsEq := jobDeps_congr hjobs,
             productsEq := jobProducts_congr hjobs,
             jobSome := fun k => by rw [job?_congr hjobs],
             failedMono := ?_, receivedMono := ?_, newReceived := ?_,
             statusStep := fun k => Or.inl (jobStatus_congr hjobs k),
             countLe := ?_ }
    · intro q h
      by_cases hqp : q = p
      · subst hqp
        exact artFailed_mark_self g q
      · rw [artFailed_mark_other g p q hqp]
        exact h
    · intro q h
      by_cases hqp : q = p
      · subst hqp
        exact artReceived_mark_self g q (by rw [hp]; rfl)
      · rw [artReceived_mark_other g p q hqp]
        exact h
    · intro q h
      by_cases hqp : q = p
      · subst hqp
        exact Or.inr (artReceived_mark_self g q (by rw [hp]; rfl))
      · rw [artFailed_mark_other g p q hqp] at h
        exact Or.inl h
    · unfold Build.markArtifactFailed
      rw [hp]
      unfold unfailedCount
      exact countP_set_le _ g.artifacts p _ (by simp)

theorem evol_failConsumers (f : Build → Nat → Build)
    (hf : ∀ g k, Evol g (f g k)) (p : Nat) (ks : List Nat) :
    ∀ g : Build, Evol g (failConsumers f p g ks) := by
  induction ks with
  | nil => intro g; exact evol_refl g
  | cons k t ih =>
    intro g
    have hstep : failConsumers f p g (k :: t) =
        failConsumers f p (if p ∈ g.jobDeps k then f g k else g) t := rfl
    rw [hstep]
    refine evol_trans ?_ (ih _)
    by_cases hmem : p ∈ g.jobDeps k
    · rw [if_pos hmem]
      exact hf g k
    · rw [if_neg hmem]
      exact evol_refl g

theorem evol_failProducts (f : Build → Nat → Build)
    (hf : ∀ g k, Evol g (f g k)) (ps : List Nat) :
    ∀ g : Build, Evol g (failProducts f g ps) := by
  induction ps with
  | nil => intro g; exact evol_refl g
  | cons p t ih =>
    intro g
    have hstep : failProducts f g (p :: t) =
        failProducts f
          (if g.artFailed p then g
           else failConsumers f p (g.markArtifactFailed p)
             (List.range (g.markArtifactFailed p).jobs.length)) t := rfl
    rw [hstep]
    refine evol_trans ?_ (ih _)
    by_cases hfail : g.artFailed p
    · rw [if_pos hfail]
      exact evol_refl g
    · rw [if_neg hfail]
      exact evol_trans (evol_mark g p) (evol_failConsumers f hf p _ _)

theorem failFuel_succ_none {g : Build} {j : Nat} (n : Nat)
    (hj : g.job? j = none) : failFuel (n + 1) g j = g := by
  unfold failFuel
  rw [hj]

theorem failFuel_succ_some {g : Build} {j : Nat} (n : Nat) (jb : BJob)
    (hj : g.job? j = some jb) :
    failFuel (n + 1) g j = failProducts (failFuel n)
      (g.setJobStatus j (failStatusNext jb.unstable jb.status)) jb.products := by
  conv_lhs => unfold failFuel
  rw [hj]

theorem evol_failFuel : ∀ (fuel : Nat) (g : Build) (j : Nat),
    Evol g (failFuel fuel g j) := by
  intro fuel
  induction fuel with
  | zero => intro g j; exact evol_refl g
  | succ n ih =>
    intro g j
    cases hj : g.job? j with
    | none => rw [failFuel_succ_none n hj]; exact evol_refl g
    | some jb =>
      rw [failFuel_succ_some n jb hj]
      exact evol_trans (evol_setJobStatus_fail g j jb.unstable jb.status)
        (evol_failProducts (failFuel n) (fun g k => ih g k) jb.products _)

theorem goodAt_persist {b g' g'' : Build} {k : Nat} (E : Evol g' g'')
    (h : GoodAt b g' k) : GoodAt b g'' k := by
  unfold GoodAt at h ⊢
  obtain ⟨h1, h2⟩ := h
  refine ⟨?_, fun q hq => E.failedMono q (h2 q hq)⟩
  rcases E.statusStep k with he | hf
  · rw [he]
    exact h1
  · exact hf

theorem goodAt_base_congr {b b' g' : Build} {k : Nat}
    (hp : ∀ m, b'.jobProducts m = b.jobProducts m)
    (h : GoodAt b' g' k) : GoodAt b g' k := by
  unfold GoodAt at h ⊢
  obtain ⟨h1, h2⟩ := h
  exact ⟨h1, fun q hq => h2 q (by rw [hp]; exact hq)⟩

theorem job?_eq_some_pair {g : Build} {j : Nat} {jb : BJob}
    (h : g.job? j = some jb) : ∃ nm, g.jobs[j]? = some (nm, jb) := by
  unfold Build.job? at h
  cases hj : g.jobs[j]? with
  | none => rw [hj] at h; simp at h
  | some nj =>
    obtain ⟨nm, jb2⟩ := nj
    rw [hj] at h
    simp at h
    subst h
    exact ⟨nm, rfl⟩

theorem failConsumers_spec (n : Nat)
    (ihf : ∀ g j, unfailedCount g < n → (g.job? j).isSome →
      GoodAt g (failFuel n g j) j ∧
      NewlyFailedHandled g (failFuel n g j)) (p : Nat) :
    ∀ (ks : List Nat) (acc : Build), unfailedCount acc < n →
      (∀ k ∈ ks, p ∈ acc.jobDeps k →
        GoodAt acc (failConsumers (failFuel n) p acc ks) k) ∧
      NewlyFailedHandled acc (failConsumers (failFuel n) p acc ks) := by
  intro ks
  induction ks with
  | nil =>
    intro acc hcnt
    constructor
    · intro k hk
      exact absurd hk (List.not_mem_nil k)
    · intro q h0 h1 k hdep
      have h1' : acc.artFailed q = true := h1
      rw [h0] at h1'
      exact absurd h1' Bool.false_ne_true
  | cons k t ih =>
    intro acc hcnt
    have hstep : failConsumers (failFuel n) p acc (k :: t) =
        failConsumers (failFuel n) p
          (if p ∈ acc.jobDeps k then failFuel n acc k else acc) t := rfl
    by_cases hmem : p ∈ acc.jobDeps k
    · have hsome : (acc.job? k).isSome := mem_jobDeps_isSome hmem
      obtain ⟨hgood, hnf⟩ := ihf acc k hcnt hsome
      have Estep : Evol acc (failFuel n acc k) := evol_failFuel n acc k
      have hcnt' : unfailedCount (failFuel n acc k) < n :=
        lt_of_le_of_lt Estep.countLe hcnt
      obtain ⟨ihA, ihB⟩ := ih (failFuel n acc k) hcnt'
      have Erest : Evol (failFuel n acc k)
          (failConsumers (failFuel n) p (failFuel n acc k) t) :=
        evol_failConsumers (failFuel n) (fun a b => evol_failFuel n a b) p t
          (failFuel n acc k)
      rw [hstep, if_pos hmem]
      constructor
      · intro k' hk' hdep'
        rcases List.mem_cons.mp hk' with he | ht
        · subst he
          exact goodAt_persist Erest hgood
        · have hdep2 : p ∈ (failFuel n acc k).jobDeps k' := by
            rw [Estep.depsEq]
            exact hdep'
          exact goodAt_base_congr Estep.productsEq (ihA k' ht hdep2)
      · intro q h0 h1 k' hdep'
        by_cases hq : (failFuel n acc k).artFailed q = true
        · exact goodAt_persist Erest (hnf q h0 hq k' hdep')
        · have h0' : (failFuel n acc k).artFailed q = false := by
            simpa using hq
          have hdep2 : q ∈ (failFuel n acc k).jobDeps k' := by
            rw [Estep.depsEq]
            exact hdep'
          exact goodAt_base_congr Estep.productsEq (ihB q h0' h1 k' hdep2)
    · rw [hstep, if_neg hmem]
      obtain ⟨ihA, ihB⟩ := ih acc hcnt
      constructor
      · intro k' hk' hdep'
        rcases List.mem_cons.mp hk' with he | ht
        · subst he
          exact absurd hdep' hmem
        · exact ihA k' ht hdep'
      · exact ihB

theorem failProducts_spec (n : Nat)
    (ihf : ∀ g j, unfailedCount g < n → (g.job? j).isSome →
      GoodAt g (failFuel n g j) j ∧
      NewlyFailedHandled g (failFuel n g j)) :
    ∀ (ps : List Nat) (acc : Build), unfailedCount acc ≤ n →
      (∀ p ∈ ps, (failProducts (failFuel n) acc ps).artFailed p = true) ∧
      NewlyFailedHandled acc (failProducts (failFuel n) acc ps) := by
  intro ps
  induction ps with
  | nil =>
    intro acc hcnt
    constructor
    · intro p hp
      exact absurd hp (List.not_mem_nil p)
    · intro q h0 h1 k hdep
      have h1' : acc.artFailed q = true := h1
      rw [h0] at h1'
      exact absurd h1' Bool.false_ne_true
  | cons p t ih =>
    intro acc hcnt
    have hstep : failProducts (failFuel n) acc (p :: t) =
        failProducts (failFuel n)
          (if acc.artFailed p then acc
           else failConsumers (failFuel n) p (acc.markArtifactFailed p)
             (List.range (acc.markArtifactFailed p).jobs.length)) t := rfl
    by_cases hfail : acc.artFailed p
    · rw [hstep, if_pos hfail]
      obtain ⟨ihA, ihB⟩ := ih acc hcnt
      refine ⟨?_, ihB⟩
      intro q hq
      rcases List.mem_cons.mp hq with he | ht
      · subst he
        have E : Evol acc (failProducts (failFuel n) acc t) :=
          evol_failProducts (failFuel n) (fun a b => evol_failFuel n a b) t acc
        exact E.failedMono q hfail
      · exact ihA q ht
    · rw [hstep, if_neg hfail]
      have hfail' : acc.artFailed p = false := by simpa using hfail
      set m := acc.markArtifactFailed p with hm
      set c := failConsumers (failFuel n) p m (List.range m.jobs.length) with hc
      have Em : Evol acc m := evol_mark acc p
      have hmlt : unfailedCount m < n :=
        lt_of_lt_of_le (unfailedCount_mark_lt hfail') hcnt
      obtain ⟨fcA, fcB⟩ :=
        failConsumers_spec n ihf p (List.range m.jobs.length) m hmlt
      have Ec : Evol m c :=
        evol_failConsumers (failFuel n) (fun a b => evol_failFuel n a b) p
          (List.range m.jobs.length) m
      have hclt : unfailedCount c ≤ n :=
        le_of_lt (lt_of_le_of_lt Ec.countLe hmlt)
      obtain ⟨ihA, ihB⟩ := ih c hclt
      have Erest : Evol c (failProducts (failFuel n) c t) :=
        evol_failProducts (failFuel n) (fun a b => evol_failFuel n a b) t c
      constructor
      · intro q hq
        rcases List.mem_cons.mp hq with he | ht
        · subst he
          have hmp : m.artFailed q = true := by
            rw [hm]
            exact artFailed_mark_self acc q
          exact Erest.failedMono q (Ec.failedMono q hmp)
        · exact ihA q ht
      · intro q h0 h1 k hdep
        by_cases hqc : c.artFailed q = true
        · by_cases hqp : q = p
          · subst hqp
            have hdepm : q ∈ m.jobDeps k := by
              rw [Em.depsEq]
              exact hdep
            have hkin : k ∈ List.range m.jobs.length :=
              List.mem_range.mpr (job?_isSome_lt (mem_jobDeps_isSome hdepm))
            exact goodAt_base_congr Em.productsEq
              (goodAt_persist Erest (fcA k hkin hdepm))
          · have h0m : m.artFailed q = false := by
              rw [hm, artFailed_mark_other acc p q hqp]
              exact h0
            have hdepm : q ∈ m.jobDeps k := by
              rw [Em.depsEq]
              exact hdep
            exact goodAt_base_congr Em.productsEq
              (goodAt_persist Erest (fcB q h0m hqc k hdepm))
        · have hqc' : c.artFailed q = false := by simpa using hqc
          have Emc : Evol acc c := evol_trans Em Ec
          have hdepc : q ∈ c.jobDeps k := by
            rw [Emc.depsEq]
            exact hdep
          exact goodAt_base_congr Emc.productsEq (ihB q hqc' h1 k hdepc)

theorem failFuel_main : ∀ (fuel : Nat) (g : Build) (j : Nat),
    unfailedCount g < fuel → (g.job? j).isSome →
    GoodAt g (failFuel fuel g j) j ∧
    NewlyFailedHandled g (failFuel fuel g j) := by
  intro fuel
  induction fuel with
  | zero =>
    intro g j hcnt _
    exact absurd hcnt (Nat.not_lt_zero _)
  | succ n ih =>
    intro g j hcnt hsome
    obtain ⟨jb, hj⟩ := Option.isSome_iff_exists.mp hsome
    obtain ⟨nm, hjp⟩ := job?_eq_some_pair hj
    rw [failFuel_succ_some n jb hj]
    set g1 := g.setJobStatus j (failStatusNext jb.unstable jb.status) with hg1
    have hart : g1.artifacts = g.artifacts := by
      rw [hg1]
      exact setJobStatus_artifacts g j (failStatusNext jb.unstable jb.status)
    have E1 : Evol g g1 := evol_setJobStatus_fail g j jb.unstable jb.status
    have hcnt1 : unfailedCount g1 ≤ n := by
      have h2 := E1.countLe
      omega
    obtain ⟨fpA, fpB⟩ := failProducts_spec n ih jb.products g1 hcnt1
    have Erest : Evol g1 (failProducts (failFuel n) g1 jb.products) :=
      evol_failProducts (failFuel n) (fun a b => evol_failFuel n a b)
        jb.products g1
    constructor
    · unfold GoodAt
      constructor
      · rcases Erest.statusStep j with he | hf
        · rw [he, hg1, jobStatus_setJobStatus_self g j _ nm jb hjp]
          exact failStatusNext_inFailSet jb.unstable jb.status
        · exact hf
      · intro q hq
        have hq' : q ∈ jb.products := by
          unfold Build.jobProducts at hq
          rw [hj] at hq
          simpa using hq
        exact fpA q hq'
    · intro q h0 h1 k hdep
      have h0' : g1.artFailed q = false := by
        rw [artFailed_congr hart]
        exact h0
      have hdep' : q ∈ g1.jobDeps k := by
        rw [E1.depsEq]
        exact hdep
      exact goodAt_base_congr E1.productsEq (fpB q h0' h1 k hdep')

/-- C3 (amended).  When Job.fail runs on job j of the build graph, every
product of j ends up with its failed bit set, a product that was not
already failed additionally has its received bit set, and every job
reachable from j along consumer edges through not-yet-failed products is
left in WAITING_FOR_DONE, FAILED or IGNORED_FAILURE — not necessarily a
terminating status, since a RUNNING consumer is parked in
WAITING_FOR_DONE. -/
theorem xbbs_C3_fail_cascade_amended (g : Build) (j0 : Nat)
    (hj : (g.job? j0).isSome) :
    (∀ p ∈ g.jobProducts j0,
      (g.jobFail j0).artFailed p = true ∧
      (g.artFailed p = false → (g.jobFail j0).artReceived p = true)) ∧
    (∀ k, ReachCons g j0 k → inFailSet ((g.jobFail j0).jobStatus k)) := by
  have hcnt : unfailedCount g < g.artifacts.length + 1 := by
    have h : g.artifacts.countP (fun a : Artifact => !a.failed) ≤
        g.artifacts.length := List.countP_le_length _
    unfold unfailedCount
    omega
  obtain ⟨main1, main2⟩ := failFuel_main (g.artifacts.length + 1) g j0 hcnt hj
  have E : Evol g (g.jobFail j0) := evol_failFuel (g.artifacts.length + 1) g j0
  obtain ⟨mstat, mprod⟩ := main1
  constructor
  · intro p hp
    refine ⟨mprod p hp, ?_⟩
    intro hpf
    rcases E.newReceived p (mprod p hp) with hbad | hr
    · rw [hpf] at hbad
      exact absurd hbad Bool.false_ne_true
    · exact hr
  · intro k hk
    unfold ReachCons at hk
    have hgood : GoodAt g (g.jobFail j0) k := by
      induction hk with
      | refl => exact ⟨mstat, mprod⟩
      | tail hik hedge ihk =>
        obtain ⟨p, hpi, hpf, hpk⟩ := hedge
        obtain ⟨ih1, ih2⟩ := ihk
        exact main2 p hpf (ih2 p hpi) _ hpk
    exact hgood.1

/-- Witness for the amended C3 theorem: its hypothesis holds at the
concrete graph exGraphC3 with job index 0, so the amended cascade
properties hold there. -/
theorem xbbs_C3_fail_cascade_amended_witness :
    (exGraphC3.job? 0).isSome = true ∧
    ((∀ p ∈ exGraphC3.jobProducts 0,
        (exGraphC3.jobFail 0).artFailed p = true ∧
        (exGraphC3.artFailed p = false →
          (exGraphC3.jobFail 0).artReceived p = true)) ∧
     (∀ k, ReachCons exGraphC3 0 k →
        inFailSet ((exGraphC3.jobFail 0).jobStatus k))) :=
  ⟨by decide, xbbs_C3_fail_cascade_amended exGraphC3 0 (by decide)⟩
